import Mathlib

/-!
# Verification of the SourceCred GraphQL mirror (`src/graphql/mirror.js`)

This file gives a shallow embedding of the mirror subsystem: the SQLite
store is modelled as explicit lists of rows, every mirror operation is a
pure function on that state, and SQL statements are translated one by one
(including SQLite's three-valued `WHERE` logic and `LEFT OUTER JOIN`
semantics).  Fallible operations return `Except`; transactional wrappers
discard the dirty state of a failed callback, modelling `ROLLBACK`.
-/

/-! ## Schema model

The GraphQL schema handed to the `Mirror` constructor.  A field is one of
`ID`, `PRIMITIVE`, `NODE(elementType)`, `CONNECTION(elementType)`; a type
is an object type (an ordered field map, as JavaScript objects preserve
insertion order for `Object.keys`) or a union.  The schema itself is an
ordered map from type name to type.
-/

inductive FieldTy where
  | idField : FieldTy
  | primitive : FieldTy
  | node (elementType : String) : FieldTy
  | connection (elementType : String) : FieldTy
  deriving DecidableEq

inductive NodeTy where
  | object (fields : List (String × FieldTy)) : NodeTy
  | union (clauses : List String) : NodeTy
  deriving DecidableEq

def Schema := List (String × NodeTy)

instance : DecidableEq Schema := inferInstanceAs (DecidableEq (List (String × NodeTy)))

/-- `this._schema[typename]`: JavaScript property lookup on the schema map. -/
def lookupType (sch : Schema) (typename : String) : Option NodeTy :=
  (sch.find? (fun p => p.1 == typename)).map (·.2)

/-- Whether a field is a `CONNECTION` field. -/
def FieldTy.isConn : FieldTy → Bool
  | .connection _ => true
  | _ => false

/-- The connection fieldnames of a type, in field declaration order
(`Object.keys(nodeType.fields)` restricted to `CONNECTION` fields).
Non-object types have none. -/
def connectionFieldnamesOfType (sch : Schema) (typename : String) : List String :=
  match lookupType sch typename with
  | some (.object fields) => (fields.filter (fun p => p.2.isConn)).map (·.1)
  | _ => []

/-! ## Store state

One row per SQL row.  `rowid INTEGER PRIMARY KEY` columns are modelled as
`Nat` surrogates handed out by per-table counters (`next…Rowid`), matching
SQLite's monotone rowid assignment in a store that never deletes rows.
Nullable columns are `Option`s.  `has_next_page BOOLEAN` is stored by the
code as the integer `+hasNextPage`, so the column holds `NULL`, `0` or `1`;
we model it as `Option Bool` where only `some true` is SQL-truthy.
-/

structure UpdateRow where
  rowid : Nat
  time_epoch_millis : Int
  deriving DecidableEq

structure ObjectRow where
  id : String
  last_update : Option Nat
  typename : String
  deriving DecidableEq

structure ConnectionRow where
  rowid : Nat
  object_id : String
  fieldname : String
  last_update : Option Nat
  total_count : Option Int
  has_next_page : Option Bool
  end_cursor : Option String
  deriving DecidableEq

structure ConnectionEntryRow where
  rowid : Nat
  connection_id : Nat
  idx : Int
  child_id : String
  deriving DecidableEq

/-- The database attached to a `Mirror`.  `meta` is the singleton row of the
`meta` table (`none` when the table is absent or empty); `structural` records
whether the structural tables (`updates`, `objects`, `links`, `connections`,
`connection_entries` and their indices) have been created; `dataTables` lists
the per-type `data_T` tables in creation order. -/
structure State where
  meta : Option String
  structural : Bool
  dataTables : List String
  updates : List UpdateRow
  objects : List ObjectRow
  connections : List ConnectionRow
  connection_entries : List ConnectionEntryRow
  nextUpdateRowid : Nat
  nextConnectionRowid : Nat
  nextEntryRowid : Nat
  deriving DecidableEq

/-- A fresh, never-used database file. -/
def emptyState : State :=
  { meta := none
    structural := false
    dataTables := []
    updates := []
    objects := []
    connections := []
    connection_entries := []
    nextUpdateRowid := 1
    nextConnectionRowid := 1
    nextEntryRowid := 1 }

/-! ## Errors

The error kinds thrown by the mirror (§7 of the spec names the kinds; the
code throws `Error`s whose messages carry the payloads recorded here —
e.g. `inconsistentType` corresponds to
`Inconsistent type for ID <id>: expected <expected>, got <got>`, whose
message contains both type names). -/

inductive MirrorError where
  | incompatibleSchema : MirrorError
  | unsafeIdentifier (name : String) : MirrorError
  | unknownType (typename : String) : MirrorError
  | ambiguousType (typename : String) : MirrorError
  | inconsistentType (id expected got : String) : MirrorError
  | unknownConnection (objectId fieldname : String) : MirrorError
  deriving DecidableEq

/-! ## `_createUpdate` -/

/-- `INSERT INTO updates (time_epoch_millis) VALUES (?)`, returning
`lastInsertROWID`.  The timestamp is `+updateTimestamp`, i.e. milliseconds
since the epoch. -/
def createUpdate (timeEpochMillis : Int) (st : State) : Nat × State :=
  (st.nextUpdateRowid,
    { st with
      updates := st.updates ++ [⟨st.nextUpdateRowid, timeEpochMillis⟩]
      nextUpdateRowid := st.nextUpdateRowid + 1 })

/-! ## `registerObject` -/

/-- `INSERT INTO connections (object_id, fieldname) VALUES (:id, :fieldname)`:
all other columns (`last_update`, `total_count`, `has_next_page`,
`end_cursor`) are initialized to `NULL`. -/
def addConnectionRow (st : State) (id fieldname : String) : State :=
  { st with
    connections := st.connections ++
      [{ rowid := st.nextConnectionRowid
         object_id := id
         fieldname := fieldname
         last_update := none
         total_count := none
         has_next_page := none
         end_cursor := none }]
    nextConnectionRowid := st.nextConnectionRowid + 1 }

/-- The `for (const fieldname of Object.keys(nodeType.fields))` loop of
`_nontransactionallyRegisterObject`, restricted to the `CONNECTION` fields
(the only case that acts). -/
def addConnectionRows (id : String) : List String → State → State
  | [], st => st
  | f :: rest, st => addConnectionRows id rest (addConnectionRow st id f)

/-- `Mirror._nontransactionallyRegisterObject`.  On failure the value is the
error together with the state of the uncommitted transaction at throw time
(which a transactional caller rolls back). -/
def nontransactionallyRegisterObject (sch : Schema) (typename id : String)
    (st : State) : Except (MirrorError × State) State :=
  match (st.objects.find? (fun o => o.id == id)).map (·.typename) with
  | some existingTypename =>
      if existingTypename == typename then
        -- Already registered; nothing to do.
        .ok st
      else
        .error (.inconsistentType id existingTypename typename, st)
  | none =>
      match lookupType sch typename with
      | none => .error (.unknownType typename, st)
      | some (.union _) => .error (.ambiguousType typename, st)
      | some (.object fields) =>
          let st1 : State :=
            { st with objects := st.objects ++ [⟨id, none, typename⟩] }
          .ok (addConnectionRows id
            ((fields.filter (fun p => p.2.isConn)).map (·.1)) st1)

/-- `Mirror.registerObject`: the transactional entry point.  A thrown error
rolls the transaction back, so the dirty state is discarded. -/
def registerObject (sch : Schema) (typename id : String) (st : State) :
    Except MirrorError State :=
  match nontransactionallyRegisterObject sch typename id st with
  | .ok st' => .ok st'
  | .error (e, _) => .error e

/-! ## `findOutdated` -/

/-- `SELECT time_epoch_millis FROM updates WHERE rowid = u` (the join target
of `LEFT OUTER JOIN updates ON … = updates.rowid`). -/
def updateTime (st : State) (u : Nat) : Option Int :=
  (st.updates.find? (fun r => r.rowid == u)).map (·.time_epoch_millis)

/-- SQL condition `updates.time_epoch_millis < :timeEpochMillisThreshold`
after `LEFT OUTER JOIN updates ON objects.last_update = updates.rowid`:
`NULL` (no `last_update`, or no matching update row) compares to `false`. -/
def objTimeLtB (st : State) (o : ObjectRow) (since : Int) : Bool :=
  match o.last_update with
  | none => false
  | some u =>
      match updateTime st u with
      | none => false
      | some t => decide (t < since)

/-- The `objects` query of `Mirror.findOutdated`:
`WHERE objects.last_update IS NULL OR updates.time_epoch_millis < :t`. -/
def findOutdatedObjects (st : State) (since : Int) : List (String × String) :=
  (st.objects.filter
      (fun o => o.last_update == none || objTimeLtB st o since)).map
    (fun o => (o.typename, o.id))

/-- The `connections` query of `Mirror.findOutdated`:
`FROM objects JOIN connections ON objects.id = connections.object_id
LEFT OUTER JOIN updates ON objects.last_update = updates.rowid
WHERE connections.has_next_page OR connections.last_update IS NULL
OR updates.time_epoch_millis < :t`.
Note that the `updates` join key is the **owner object's** `last_update`,
not the connection's.  Rows carry `(typename, id, fieldname, endCursor)`. -/
def findOutdatedConnections (st : State) (since : Int) :
    List (String × String × String × Option String) :=
  st.objects.flatMap (fun o =>
    ((st.connections.filter (fun c =>
        c.object_id == o.id &&
          (c.has_next_page == some true || c.last_update == none ||
            objTimeLtB st o since))).map
      (fun c => (o.typename, o.id, c.fieldname, c.end_cursor))))

/-- `Mirror.findOutdated`: both queries inside one read transaction. -/
def findOutdated (st : State) (since : Int) :
    List (String × String) × List (String × String × String × Option String) :=
  (findOutdatedObjects st since, findOutdatedConnections st since)

/-! ## `_getEndCursor` -/

/-- `SELECT rowid … FROM connections WHERE object_id = … AND fieldname = …`:
the unique matching row (`.get` returns the first). -/
def findConn (st : State) (objectId fieldname : String) : Option ConnectionRow :=
  st.connections.find?
    (fun c => c.object_id == objectId && c.fieldname == fieldname)

/-- `Mirror._getEndCursor`.  The result distinguishes `undefined` (`none`,
connection never fetched: `last_update IS NULL`) from a stored cursor
`some c` where `c : Option String` may itself be SQL `NULL`. -/
def getEndCursor (st : State) (objectId fieldname : String) :
    Except MirrorError (Option (Option String)) :=
  match findConn st objectId fieldname with
  | none => .error (.unknownConnection objectId fieldname)
  | some c => .ok (if c.last_update.isSome then some c.end_cursor else none)

/-! ## Wire response types

`NodeFieldResult` and `ConnectionFieldResult` from `mirror.js`. -/

structure NodeFieldResult where
  typename : String
  id : String
  deriving DecidableEq

structure PageInfo where
  hasNextPage : Bool
  endCursor : Option String
  deriving DecidableEq

structure ConnectionFieldResult where
  totalCount : Int
  pageInfo : PageInfo
  nodes : List NodeFieldResult
  deriving DecidableEq

/-! ## `_updateConnection` -/

/-- The `idx` values of one connection's `connection_entries`, in table
(insertion) order. -/
def entryIdxs (st : State) (cid : Nat) : List Int :=
  (st.connection_entries.filter (fun e => e.connection_id == cid)).map (·.idx)

/-- `SELECT IFNULL(MAX(idx), 0) FROM connection_entries
WHERE connection_id = :connectionId`. -/
def maxIdx (st : State) (cid : Nat) : Int :=
  match entryIdxs st cid with
  | [] => 0
  | a :: rest => rest.foldl max a

/-- `INSERT INTO connection_entries (connection_id, idx, child_id)
VALUES (:connectionId, :idx, :childId)`. -/
def addEntryRow (st : State) (cid : Nat) (i : Int) (childId : String) : State :=
  { st with
    connection_entries := st.connection_entries ++
      [⟨st.nextEntryRowid, cid, i, childId⟩]
    nextEntryRowid := st.nextEntryRowid + 1 }

/-- The `for (const node of queryResult.nodes)` loop: register the child
object, then insert its entry at `nextIndex++`. -/
def insertEntries (sch : Schema) (cid : Nat) :
    Int → List NodeFieldResult → State → Except (MirrorError × State) State
  | _, [], st => .ok st
  | i, n :: rest, st =>
      match nontransactionallyRegisterObject sch n.typename n.id st with
      | .error e => .error e
      | .ok st1 => insertEntries sch cid (i + 1) rest (addEntryRow st1 cid i n.id)

/-- `UPDATE connections SET last_update = …, total_count = …,
has_next_page = …, end_cursor = … WHERE rowid = :connectionId`. -/
def updateConnRow (st : State) (cid : Nat) (updateId : Nat)
    (r : ConnectionFieldResult) : State :=
  { st with
    connections := st.connections.map (fun c =>
      if c.rowid == cid then
        { c with
          last_update := some updateId
          total_count := some r.totalCount
          has_next_page := some r.pageInfo.hasNextPage
          end_cursor := r.pageInfo.endCursor }
      else c) }

/-- `Mirror._nontransactionallyUpdateConnection`. -/
def nontransactionallyUpdateConnection (sch : Schema) (updateId : Nat)
    (objectId fieldname : String) (r : ConnectionFieldResult) (st : State) :
    Except (MirrorError × State) State :=
  match (findConn st objectId fieldname).map (·.rowid) with
  | none => .error (.unknownConnection objectId fieldname, st)
  | some cid =>
      let st1 := updateConnRow st cid updateId r
      let nextIndex := maxIdx st1 cid + 1
      insertEntries sch cid nextIndex r.nodes st1

/-- `Mirror._updateConnection`: the transactional entry point; a thrown
error rolls back all uncommitted writes. -/
def updateConnection (sch : Schema) (updateId : Nat)
    (objectId fieldname : String) (r : ConnectionFieldResult) (st : State) :
    Except MirrorError State :=
  match nontransactionallyUpdateConnection sch updateId objectId fieldname r st with
  | .ok st' => .ok st'
  | .error (e, _) => .error e

/-! ## Query builder and `_queryConnection`

Modelled from the spec: the `Queries` module (`src/graphql/queries.js`) is
not among the provided sources; §4.2 of the spec describes it as a typed
representation of GraphQL selection sets with operations
`field(name, args?, children?)`, `literal(scalar|null)` and
`variable(name)`, where arguments accept literal scalars or referenced
variables.  `_queryConnection` and `_queryShallow` themselves are
translated from `mirror.js`. -/

inductive QueryLiteral where
  | num (n : Int) : QueryLiteral
  | str (s : String) : QueryLiteral
  | null : QueryLiteral
  deriving DecidableEq

inductive QueryValue where
  | literal (l : QueryLiteral) : QueryValue
  | varRef (name : String) : QueryValue
  deriving DecidableEq

inductive Selection where
  | field (name : String) (args : List (String × QueryValue))
      (children : List Selection) : Selection

/-- `b.literal(endCursor)` where `endCursor : string | null`. -/
def literalOfCursor : Option String → QueryValue
  | none => .literal .null
  | some s => .literal (.str s)

/-- `Mirror._queryShallow`: the selection set `{ __typename, id }`. -/
def queryShallow : List Selection :=
  [.field "__typename" [] [], .field "id" [] []]

/-- `Mirror._queryConnection(fieldname, endCursor, connectionPageSize = 100)`.
`endCursor` is `EndCursor | void`: the outer `Option` is
`undefined`/present, the inner is GraphQL `null`/string.  The `after`
argument is added exactly when `endCursor !== undefined`. -/
def queryConnection (fieldname : String) (endCursor : Option (Option String))
    (connectionPageSize : Int := 100) : List Selection :=
  let connectionArguments : List (String × QueryValue) :=
    match endCursor with
    | none => [("first", .literal (.num connectionPageSize))]
    | some c =>
        [("first", .literal (.num connectionPageSize)),
         ("after", literalOfCursor c)]
  [.field fieldname connectionArguments
    [.field "totalCount" [] [],
     .field "pageInfo" [] [.field "endCursor" [] [], .field "hasNextPage" [] []],
     .field "nodes" [] queryShallow]]

/-! ## Canonical JSON and the schema fingerprint

Modelled from the spec: the fingerprint is computed by the external
`json-stable-stringify` package, a canonical JSON encoding that serializes
every object's keys in sorted order; the `Schema`-to-JSON shape comes from
the (absent) `src/graphql/schema.js` constructors, whose exact key names do
not affect the claims.  We serialize to `List Char` and wrap into `String`
at the end; object fields are sorted by key before being emitted, so
`jsonChars` itself emits fields in the order given. -/

inductive JsonValue where
  | jnull : JsonValue
  | jbool (b : Bool) : JsonValue
  | jint (n : Int) : JsonValue
  | jstr (s : String) : JsonValue
  | jarr (elements : List JsonValue) : JsonValue
  | jobj (fields : List (String × JsonValue)) : JsonValue

/-- JSON string escaping (`JSON.stringify` on a string): quote and
backslash are escaped, control characters get a `\u00XX` escape, all other
characters stand for themselves. -/
def jsonEscapeChar (c : Char) : List Char :=
  if c = '"' then ['\\', '"']
  else if c = '\\' then ['\\', '\\']
  else if c.toNat < 32 then
    ['\\', 'u', '0', '0', Nat.digitChar (c.toNat / 16), Nat.digitChar (c.toNat % 16)]
  else [c]

def jsonStringChars (s : String) : List Char :=
  '"' :: (s.data.flatMap jsonEscapeChar ++ ['"'])

/-- Decimal digits of an integer (used for JSON number output). -/
def jsonNumChars (n : Int) : List Char :=
  (toString n).data

/-- Insert a key/value pair into a key-sorted field list. -/
def insertPair (p : String × JsonValue) : List (String × JsonValue) → List (String × JsonValue)
  | [] => [p]
  | q :: rest => if p.1 ≤ q.1 then p :: q :: rest else q :: insertPair p rest

/-- Insertion sort of object fields by key (the key-sorted order used by
the canonical encoding). -/
def sortPairs : List (String × JsonValue) → List (String × JsonValue)
  | [] => []
  | p :: rest => insertPair p (sortPairs rest)

mutual

def jsonChars : JsonValue → List Char
  | .jnull => "null".data
  | .jbool true => "true".data
  | .jbool false => "false".data
  | .jint n => jsonNumChars n
  | .jstr s => jsonStringChars s
  | .jarr elements => '[' :: (jsonArrChars elements ++ [']'])
  | .jobj fields => '\x7b' :: (jsonObjChars fields ++ ['\x7d'])

def jsonArrChars : List JsonValue → List Char
  | [] => []
  | [j] => jsonChars j
  | j :: j' :: rest => jsonChars j ++ ',' :: jsonArrChars (j' :: rest)

def jsonObjChars : List (String × JsonValue) → List Char
  | [] => []
  | [(k, v)] => jsonStringChars k ++ ':' :: jsonChars v
  | (k, v) :: p :: rest =>
      (jsonStringChars k ++ ':' :: jsonChars v) ++ ',' :: jsonObjChars (p :: rest)

end

/-- Modelled from the spec: the canonical JSON encoding of a `Schema` value
(the shape produced by the `schema.js` constructors, serialized with sorted
keys at every level by `json-stable-stringify`).  Fields and types are
sorted by name here, so the emission order equals the canonical order. -/
def fieldToJson : FieldTy → JsonValue
  | .idField => .jobj [("type", .jstr "ID")]
  | .primitive => .jobj [("type", .jstr "PRIMITIVE")]
  | .node t => .jobj [("elementType", .jstr t), ("type", .jstr "NODE")]
  | .connection t => .jobj [("elementType", .jstr t), ("type", .jstr "CONNECTION")]

def nodeTyToJson : NodeTy → JsonValue
  | .object fields =>
      .jobj [("fields", .jobj (sortPairs (fields.map (fun p => (p.1, fieldToJson p.2))))),
            ("type", .jstr "OBJECT")]
  | .union clauses =>
      .jobj [("clauses", .jarr (clauses.map .jstr)), ("type", .jstr "UNION")]

def schemaToJson (sch : Schema) : JsonValue :=
  .jobj (sortPairs (sch.map (fun p => (p.1, nodeTyToJson p.2))))

/-- `stringify({version, schema: …})` with canonical key order
(`"schema" < "version"`). -/
def mirrorBlobChars (version : String) (sch : Schema) : List Char :=
  jsonChars (.jobj [("schema", schemaToJson sch), ("version", .jstr version)])

def mirrorBlob (version : String) (sch : Schema) : String :=
  ⟨mirrorBlobChars version sch⟩

/-! ## `_initialize` -/

/-- `isSqlSafe`: `!token.match(/[^A-Za-z0-9_]/)`. -/
def isSqlSafe (token : String) : Bool :=
  token.data.all (fun c => c.isAlphanum || c == '_')

/-- The per-object-type validation and `CREATE TABLE "data_T"` loop of
`_initialize`: raise on the first unsafe object type name or unsafe
primitive field name (in schema order), otherwise list the created data
tables in order.  Unions create no table. -/
def createDataTables : Schema → Except MirrorError (List String)
  | [] => .ok []
  | (_, .union _) :: rest => createDataTables rest
  | (typename, .object fields) :: rest =>
      if !isSqlSafe typename then .error (.unsafeIdentifier typename)
      else
        match fields.find? (fun p => p.2 == .primitive && !isSqlSafe p.1) with
        | some p => .error (.unsafeIdentifier p.1)
        | none =>
            match createDataTables rest with
            | .error e => .error e
            | .ok tables => .ok (("data_" ++ typename) :: tables)

/-- `Mirror._initialize`, parametrized by the module's version string (the
source fixes it to `"MIRROR_v1"`).  Matching meta row: no-op.  Differing
meta row: `IncompatibleSchema`, transaction rolled back.  No meta row:
insert the fingerprint, create the structural tables and the per-type data
tables (validating identifiers).  The fresh-store branch is stated for a
store without structural tables, as the `CREATE TABLE` statements would
themselves fail on a partially populated file. -/
def bootstrapWith (version : String) (sch : Schema) (st : State) :
    Except MirrorError State :=
  let blob := mirrorBlob version sch
  match st.meta with
  | some existingBlob =>
      if existingBlob == blob then .ok st else .error .incompatibleSchema
  | none =>
      match createDataTables sch with
      | .error e => .error e
      | .ok tables =>
          .ok { st with meta := some blob, structural := true, dataTables := tables }

/-- The `Mirror` constructor's initialization with the current version. -/
def bootstrap (sch : Schema) (st : State) : Except MirrorError State :=
  bootstrapWith "MIRROR_v1" sch st

/-! ## Basic lemmas -/

theorem objStaleB_iff (st : State) (o : ObjectRow) (since : Int) :
    (o.last_update == none || objTimeLtB st o since) = true ↔
      o.last_update = none ∨
        ∃ u t, o.last_update = some u ∧ updateTime st u = some t ∧ t < since := by
  cases h : o.last_update with
  | none => simp [h, objTimeLtB]
  | some u =>
      cases h2 : updateTime st u with
      | none => simp [h, h2, objTimeLtB]
      | some t => simp [h, h2, objTimeLtB]

theorem find?_map_eq_some {α : Type} {p : α → Bool} {l : List α} {x : α}
    (h : l.find? p = some x) : x ∈ l ∧ p x = true :=
  ⟨List.mem_of_find?_eq_some h, List.find?_some h⟩

theorem nodup_map_inj {α β : Type} {f : α → β} {l : List α}
    (h : (l.map f).Nodup) {x y : α} (hx : x ∈ l) (hy : y ∈ l)
    (hf : f x = f y) : x = y :=
  List.inj_on_of_nodup_map h hx hy hf

/-- C5: For every database state and every threshold `since` (in
milliseconds), `findOutdated`'s `objects` query returns exactly those
objects whose `last_update` is `NULL` or references an update whose
`time_epoch_millis` is strictly less than `since`; in particular an object
whose update timestamp equals `since` is not returned. -/
theorem findOutdatedObjects_spec (st : State) (since : Int)
    (hnd : (st.objects.map (·.id)).Nodup) :
    (∀ t i, (t, i) ∈ findOutdatedObjects st since ↔
      ∃ o ∈ st.objects, o.typename = t ∧ o.id = i ∧
        (o.last_update = none ∨
          ∃ u ts, o.last_update = some u ∧ updateTime st u = some ts ∧
            ts < since)) ∧
    (∀ o ∈ st.objects, ∀ u, o.last_update = some u →
      updateTime st u = some since →
      (o.typename, o.id) ∉ findOutdatedObjects st since) := by
  have hiff : ∀ t i, (t, i) ∈ findOutdatedObjects st since ↔
      ∃ o ∈ st.objects, o.typename = t ∧ o.id = i ∧
        (o.last_update = none ∨
          ∃ u ts, o.last_update = some u ∧ updateTime st u = some ts ∧
            ts < since) := by
    intro t i
    constructor
    · intro hmem
      simp only [findOutdatedObjects, List.mem_map, List.mem_filter] at hmem
      obtain ⟨o, ⟨ho, hs⟩, heq⟩ := hmem
      obtain ⟨ht, hi⟩ := Prod.mk.injEq .. ▸ heq
      exact ⟨o, ho, ht, hi, (objStaleB_iff st o since).mp hs⟩
    · rintro ⟨o, ho, ht, hi, hstale⟩
      simp only [findOutdatedObjects, List.mem_map, List.mem_filter]
      exact ⟨o, ⟨ho, (objStaleB_iff st o since).mpr hstale⟩, by rw [ht, hi]⟩
  refine ⟨hiff, ?_⟩
  intro o ho u hu ht hmem
  obtain ⟨o', ho', ht', hi', hstale⟩ := (hiff o.typename o.id).mp hmem
  have : o' = o := nodup_map_inj hnd ho' ho hi'
  subst this
  rcases hstale with h | ⟨u', ts, hu', hts, hlt⟩
  · rw [hu] at h; exact Option.noConfusion h
  · rw [hu] at hu'
    injection hu' with huu
    subst huu
    rw [ht] at hts
    injection hts with htss
    rw [← htss] at hlt
    exact absurd hlt (lt_irrefl since)

/-- Witness for `findOutdatedObjects_spec` at a concrete store. -/
theorem findOutdatedObjects_spec_witness :
    (({ emptyState with objects := [⟨"x", none, "T"⟩] } : State).objects.map
        (·.id)).Nodup ∧
      ("T", "x") ∈ findOutdatedObjects
        { emptyState with objects := [⟨"x", none, "T"⟩] } 456 := by
  constructor
  · decide
  · exact (findOutdatedObjects_spec
      { emptyState with objects := [⟨"x", none, "T"⟩] } 456 (by decide)).1 "T" "x"
      |>.mpr ⟨⟨"x", none, "T"⟩, by decide, rfl, rfl, Or.inl rfl⟩

/-- C7: `_queryConnection(fieldname, endCursor, pageSize = 100)`
produces `fieldname(first: pageSize [, after: endCursor])
\x7b totalCount pageInfo \x7b endCursor hasNextPage \x7d
nodes \x7b __typename id \x7d \x7d`; the `after` argument is present iff
`endCursor` is not `undefined` — with a null literal when `endCursor` is
`null` — and `pageSize` defaults to `100`. -/
theorem queryConnection_spec (f : String) (ec : Option (Option String))
    (ps : Int) :
    queryConnection f ec = queryConnection f ec 100 ∧
    queryConnection f none ps =
      [.field f [("first", .literal (.num ps))]
        [.field "totalCount" [] [],
         .field "pageInfo" []
           [.field "endCursor" [] [], .field "hasNextPage" [] []],
         .field "nodes" [] [.field "__typename" [] [], .field "id" [] []]]] ∧
    (∀ c, queryConnection f (some c) ps =
      [.field f [("first", .literal (.num ps)), ("after", literalOfCursor c)]
        [.field "totalCount" [] [],
         .field "pageInfo" []
           [.field "endCursor" [] [], .field "hasNextPage" [] []],
         .field "nodes" [] [.field "__typename" [] [], .field "id" [] []]]]) ∧
    literalOfCursor none = .literal .null ∧
    (∀ args children, queryConnection f ec ps = [.field f args children] →
      ((∃ v, ("after", v) ∈ args) ↔ ec ≠ none)) := by
  refine ⟨rfl, rfl, fun c => rfl, rfl, ?_⟩
  intro args children h
  cases ec with
  | none =>
      simp only [queryConnection] at h
      injection h with h1 _
      cases h1
      simp
  | some c =>
      simp only [queryConnection] at h
      injection h with h1 _
      cases h1
      constructor
      · intro _ hc; exact Option.noConfusion hc
      · intro _; exact ⟨literalOfCursor c, by simp⟩

/-! ## C1: the `findOutdated` connections query -/

/-- Definition following the spec's words (§4.6): a `connections` row is
stale when its own `last_update` is `NULL`, the update referenced by the
connection's `last_update` has timestamp strictly less than `since`, or
`has_next_page` is true.  Stated for comparison with
`findOutdatedConnections`, whose SQL joins `updates` on the **owner
object's** `last_update` instead. -/
def connectionStaleSpec (st : State) (since : Int) (c : ConnectionRow) : Prop :=
  c.last_update = none ∨
    (∃ u t, c.last_update = some u ∧ updateTime st u = some t ∧ t < since) ∨
    c.has_next_page = some true

/-- The schema used for the C1 failing input. -/
def c1Schema : Schema :=
  [("Repository", .object [("id", .idField), ("issues", .connection "Issue")]),
   ("Issue", .object [("id", .idField)])]

/-- The C1 failing input, produced by public mirror operations only:
register a repository, create an update at t = 123, and ingest its
`issues` connection under that update with `hasNextPage: false`. -/
def c1Trace : Except MirrorError State :=
  (registerObject c1Schema "Repository" "R" emptyState).bind (fun st =>
    let p := createUpdate 123 st
    updateConnection c1Schema p.1 "R" "issues"
      { totalCount := 0
        pageInfo := { hasNextPage := false, endCursor := some "c0" }
        nodes := [] } p.2)

def c1State : State :=
  match c1Trace with
  | .ok st => st
  | .error _ => emptyState

/-- C1 (divergence): the connection `R.issues` was fetched by the update
with timestamp 123, so by the claim it is stale at `since = 456`; but the
`connections` query joins `updates` on `objects.last_update` (which is
still `NULL` here, as nothing ever sets it in this module), so
`findOutdated` returns no connections at all. -/
theorem findOutdatedConnections_joins_object_update :
    (∃ c, findConn c1State "R" "issues" = some c ∧ c ∈ c1State.connections ∧
      c.last_update = some 1 ∧ updateTime c1State 1 = some 123 ∧
      connectionStaleSpec c1State 456 c) ∧
    findOutdatedConnections c1State 456 = [] := by
  refine ⟨⟨⟨1, "R", "issues", some 1, some 0, some false, some "c0"⟩,
    by decide, by decide, rfl, by decide, ?_⟩, by decide⟩
  exact Or.inr (Or.inl ⟨1, 123, rfl, by decide, by decide⟩)

/-! ## C4 and C9: `registerObject` error cases -/

theorem findObj_eq_some_of_mem (st : State) {i : String} {o : ObjectRow}
    (hnd : (st.objects.map (·.id)).Nodup) (ho : o ∈ st.objects)
    (hid : o.id = i) :
    st.objects.find? (fun o => o.id == i) = some o := by
  have hs : (st.objects.find? (fun o => o.id == i)).isSome := by
    rw [List.find?_isSome]
    exact ⟨o, ho, by simp [hid]⟩
  obtain ⟨o', ho'⟩ := Option.isSome_iff_exists.mp hs
  obtain ⟨hmem, hp⟩ := find?_map_eq_some ho'
  have hid' : o'.id = i := by simpa using hp
  have : o' = o := nodup_map_inj hnd hmem ho (hid'.trans hid.symm)
  rw [this] at ho'
  exact ho'

theorem findObj_eq_none (st : State) {i : String}
    (h : ∀ o ∈ st.objects, o.id ≠ i) :
    st.objects.find? (fun o => o.id == i) = none := by
  rw [List.find?_eq_none]
  intro o ho
  simpa using h o ho

/-- Every failure branch of `_nontransactionallyRegisterObject` throws
before performing any mutation: the uncommitted state at throw time is the
pre-operation state. -/
theorem registerObject_error_state (sch : Schema) (t i : String) (st : State) :
    ∀ e dirty, nontransactionallyRegisterObject sch t i st = .error (e, dirty) →
      dirty = st := by
  intro e dirty h
  unfold nontransactionallyRegisterObject at h
  cases hf : (st.objects.find? (fun o => o.id == i)).map (·.typename) with
  | some ex =>
      rw [hf] at h
      by_cases hb : ex = t
      · simp [hb] at h
      · simp only [show (ex == t) = false by simpa using hb, if_neg] at h
        simp at h
        exact h.2.symm
  | none =>
      rw [hf] at h
      cases hl : lookupType sch t with
      | none =>
          rw [hl] at h
          simp at h
          exact h.2.symm
      | some nt =>
          rw [hl] at h
          cases nt with
          | union cs => simp at h; exact h.2.symm
          | object fields => simp at h

/-- C4: `registerObject` is a no-op when the object is already registered
with the same typename; fails with `InconsistentType` (carrying both type
names) when the id exists under a different typename; for an unregistered
id it fails with `UnknownType` when the typename is not in the schema and
with `AmbiguousType` when it names a union; and every failure leaves the
database in its pre-operation state (the helper throws before mutating and
the transaction is rolled back). -/
theorem registerObject_cases (sch : Schema) (st : State) (t i : String)
    (hnd : (st.objects.map (·.id)).Nodup) :
    ((∃ o ∈ st.objects, o.id = i ∧ o.typename = t) →
        registerObject sch t i st = .ok st) ∧
    (∀ o ∈ st.objects, o.id = i → o.typename ≠ t →
        registerObject sch t i st = .error (.inconsistentType i o.typename t)) ∧
    ((∀ o ∈ st.objects, o.id ≠ i) → lookupType sch t = none →
        registerObject sch t i st = .error (.unknownType t)) ∧
    ((∀ o ∈ st.objects, o.id ≠ i) → ∀ cs, lookupType sch t = some (.union cs) →
        registerObject sch t i st = .error (.ambiguousType t)) ∧
    (∀ e dirty, nontransactionallyRegisterObject sch t i st = .error (e, dirty) →
        dirty = st) := by
  refine ⟨?_, ?_, ?_, ?_, registerObject_error_state sch t i st⟩
  · rintro ⟨o, ho, hid, hty⟩
    have hf := findObj_eq_some_of_mem st hnd ho hid
    simp [registerObject, nontransactionallyRegisterObject, hf, hty]
  · intro o ho hid hne
    have hf := findObj_eq_some_of_mem st hnd ho hid
    simp only [registerObject, nontransactionallyRegisterObject, hf, Option.map_some]
    simp [show (o.typename == t) = false by simpa using hne]
  · intro hno hl
    have hf := findObj_eq_none st hno
    simp [registerObject, nontransactionallyRegisterObject, hf, hl]
  · intro hno cs hl
    have hf := findObj_eq_none st hno
    simp [registerObject, nontransactionallyRegisterObject, hf, hl]

/-- Witness for `registerObject_cases`. -/
theorem registerObject_cases_witness :
    (([⟨"x", none, "T"⟩] : List ObjectRow).map (·.id)).Nodup ∧
      registerObject [("T", .object [("id", .idField)])] "U" "x"
        { emptyState with objects := [⟨"x", none, "T"⟩] } =
        .error (.inconsistentType "x" "T" "U") := by
  refine ⟨by decide, ?_⟩
  exact (registerObject_cases [("T", .object [("id", .idField)])]
      { emptyState with objects := [⟨"x", none, "T"⟩] } "U" "x" (by decide)).2.1
    ⟨"x", none, "T"⟩ (by decide) rfl (by decide)

/-- C9: the existing-row check precedes the schema lookup.  An id already
registered under `t1` makes `registerObject` with any different `t2` fail
with `InconsistentType`, even when `t2` is absent from the schema or names
a union; dually, `UnknownType` and `AmbiguousType` errors only ever arise
for ids with no existing row. -/
theorem registerObject_inconsistent_precedence (sch : Schema) (st : State)
    (t1 t2 i : String) (hnd : (st.objects.map (·.id)).Nodup)
    (h1 : ∃ o ∈ st.objects, o.id = i ∧ o.typename = t1) (hne : t2 ≠ t1) :
    registerObject sch t2 i st = .error (.inconsistentType i t1 t2) ∧
    (∀ (sch' : Schema) (t' i' : String) (st' : State) (e : MirrorError),
      registerObject sch' t' i' st' = .error e →
      (e = .unknownType t' ∨ e = .ambiguousType t') →
      ∀ o ∈ st'.objects, o.id ≠ i') := by
  constructor
  · obtain ⟨o, ho, hid, hty⟩ := h1
    have hf := findObj_eq_some_of_mem st hnd ho hid
    have hmap : (st.objects.find? (fun o => o.id == i)).map (·.typename) =
        some t1 := by rw [hf]; simp [hty]
    simp only [registerObject, nontransactionallyRegisterObject, hmap]
    simp [show (t1 == t2) = false by simpa using fun h => hne h.symm]
  · intro sch' t' i' st' e herr hkind o ho hid
    cases hf : st'.objects.find? (fun o => o.id == i') with
    | none =>
        rw [List.find?_eq_none] at hf
        exact absurd (by simp [hid]) (hf o ho)
    | some o'' =>
        have hmap : (st'.objects.find? (fun o => o.id == i')).map (·.typename) =
            some o''.typename := by rw [hf]; rfl
        rcases hkind with rfl | rfl <;>
          (simp only [registerObject, nontransactionallyRegisterObject,
              hmap] at herr
           by_cases hb : o''.typename = t'
           · simp [hb] at herr
           · simp [show (o''.typename == t') = false by simpa using hb]
               at herr)

/-- Witness for `registerObject_inconsistent_precedence`: `"x"` is
registered as `"T"`; re-registering it under the union typename `"Un"`
(which would otherwise be `AmbiguousType`) yields `InconsistentType`. -/
theorem registerObject_inconsistent_precedence_witness :
    (([⟨"x", none, "T"⟩] : List ObjectRow).map (·.id)).Nodup ∧
      registerObject [("Un", .union ["T"])] "Un" "x"
        { emptyState with objects := [⟨"x", none, "T"⟩] } =
        .error (.inconsistentType "x" "T" "Un") :=
  ⟨by decide,
    (registerObject_inconsistent_precedence [("Un", .union ["T"])]
      { emptyState with objects := [⟨"x", none, "T"⟩] } "T" "Un" "x"
      (by decide) ⟨⟨"x", none, "T"⟩, by decide, rfl, rfl⟩ (by decide)).1⟩

/-! ## C3: bootstrap -/

/-- The names of the per-type `data_T` tables `_initialize` creates, in
schema order. -/
def objectTableNames : Schema → List String
  | [] => []
  | (t, .object _) :: rest => ("data_" ++ t) :: objectTableNames rest
  | (_, .union _) :: rest => objectTableNames rest

/-- Whether every object type name and every primitive field name in the
schema matches the safe identifier pattern `^[A-Za-z0-9_]+$` (or is empty,
which the code's regex also accepts). -/
def schemaIdentifiersSafe : Schema → Bool
  | [] => true
  | (t, .object fields) :: rest =>
      isSqlSafe t &&
        fields.all (fun f => f.2 != .primitive || isSqlSafe f.1) &&
        schemaIdentifiersSafe rest
  | (_, .union _) :: rest => schemaIdentifiersSafe rest

theorem createDataTables_safe : ∀ sch : Schema,
    schemaIdentifiersSafe sch = true →
    createDataTables sch = .ok (objectTableNames sch) := by
  intro sch h
  induction sch with
  | nil => rfl
  | cons p rest ih =>
      obtain ⟨t, ty⟩ := p
      cases ty with
      | union cs =>
          simp only [schemaIdentifiersSafe] at h
          simp only [createDataTables, objectTableNames]
          exact ih h
      | object fields =>
          simp only [schemaIdentifiersSafe, Bool.and_eq_true] at h
          obtain ⟨⟨hsafe, hfields⟩, hrest⟩ := h
          have hfind : fields.find?
              (fun p => p.2 == .primitive && !isSqlSafe p.1) = none := by
            rw [List.find?_eq_none]
            intro f hf
            have := List.all_eq_true.mp hfields f hf
            simp only [Bool.or_eq_true, bne_iff_ne, ne_eq] at this
            simp only [Bool.and_eq_true, beq_iff_eq, Bool.not_eq_true']
            rintro ⟨h1, h2⟩
            rcases this with h3 | h3
            · exact h3 h1
            · rw [h3] at h2; exact Bool.noConfusion h2
          simp only [createDataTables, hsafe, Bool.not_true, hfind,
            objectTableNames, ih hrest]
          simp

theorem createDataTables_unsafe : ∀ sch : Schema,
    schemaIdentifiersSafe sch = false →
    ∃ n, createDataTables sch = .error (.unsafeIdentifier n) := by
  intro sch h
  induction sch with
  | nil => exact absurd h (by decide)
  | cons p rest ih =>
      obtain ⟨t, ty⟩ := p
      cases ty with
      | union cs =>
          simp only [schemaIdentifiersSafe] at h
          simp only [createDataTables]
          exact ih h
      | object fields =>
          by_cases hsafe : isSqlSafe t = true
          · by_cases hfind : (fields.find?
                (fun p => p.2 == .primitive && !isSqlSafe p.1)).isSome = true
            · obtain ⟨f, hf⟩ := Option.isSome_iff_exists.mp hfind
              refine ⟨f.1, ?_⟩
              simp only [createDataTables, hsafe, Bool.not_true, hf]
              simp
            · have hfind' : fields.find?
                  (fun p => p.2 == .primitive && !isSqlSafe p.1) = none := by
                rw [← Option.not_isSome_iff_eq_none]
                exact fun hs => hfind hs
              have hrest : schemaIdentifiersSafe rest = false := by
                simp only [schemaIdentifiersSafe, hsafe, Bool.true_and,
                  Bool.and_eq_false_iff] at h
                rcases h with h1 | h1
                · exfalso
                  rw [List.all_eq_false] at h1
                  obtain ⟨f, hf, hfp⟩ := h1
                  rw [List.find?_eq_none] at hfind'
                  apply hfind' f hf
                  simp only [Bool.or_eq_false_iff, bne_eq_false_iff_eq,
                    Bool.not_eq_true] at hfp
                  simp [hfp.1, hfp.2]
                · exact h1
              obtain ⟨n, hn⟩ := ih hrest
              refine ⟨n, ?_⟩
              simp only [createDataTables, hsafe, Bool.not_true, hfind', hn]
              simp
          · refine ⟨t, ?_⟩
            simp only [Bool.not_eq_true] at hsafe
            simp [createDataTables, hsafe]

/-- C3 counterexample: on a fresh store, a schema whose object type name
fails the safe-identifier check makes construction fail; the fingerprint is
not inserted, contradicting the claim that a store with no meta row always
gets the fingerprint and the tables. -/
theorem bootstrap_unsafe_identifier_cex :
    emptyState.meta = none ∧
    bootstrap [("bad name", .object [("id", .idField)])] emptyState =
      .error (.unsafeIdentifier "bad name") ∧
    ∀ st', bootstrap [("bad name", .object [("id", .idField)])] emptyState ≠
      .ok st' := by
  have he : bootstrap [("bad name", .object [("id", .idField)])] emptyState =
      .error (.unsafeIdentifier "bad name") := rfl
  exact ⟨rfl, he, fun st' h => by rw [he] at h; cases h⟩

/-- C3 (amended): on a store whose meta row equals the fingerprint the
constructor is a no-op; on a store whose meta row differs it fails with
`IncompatibleSchema` (rolling back, so the database is unchanged); on a
store with no meta row it inserts the fingerprint and creates the tables
provided every object type name and primitive field name is SQL-safe, and
otherwise fails with `UnsafeIdentifier`. -/
theorem bootstrap_cases (sch : Schema) (st : State) :
    (st.meta = some (mirrorBlob "MIRROR_v1" sch) → bootstrap sch st = .ok st) ∧
    (∀ b, st.meta = some b → b ≠ mirrorBlob "MIRROR_v1" sch →
      bootstrap sch st = .error .incompatibleSchema) ∧
    (st.meta = none → schemaIdentifiersSafe sch = true →
      bootstrap sch st =
        .ok { st with meta := some (mirrorBlob "MIRROR_v1" sch)
                      structural := true
                      dataTables := objectTableNames sch }) ∧
    (st.meta = none → schemaIdentifiersSafe sch = false →
      ∃ n, bootstrap sch st = .error (.unsafeIdentifier n)) := by
  refine ⟨?_, ?_, ?_, ?_⟩
  · intro h
    simp [bootstrap, bootstrapWith, h]
  · intro b h hne
    simp only [bootstrap, bootstrapWith, h]
    simp [show (b == mirrorBlob "MIRROR_v1" sch) = false by simpa using hne]
  · intro h hsafe
    simp only [bootstrap, bootstrapWith, h, createDataTables_safe sch hsafe]
  · intro h hunsafe
    obtain ⟨n, hn⟩ := createDataTables_unsafe sch hunsafe
    refine ⟨n, ?_⟩
    simp only [bootstrap, bootstrapWith, h, hn]

/-- Witness for `bootstrap_cases`: a fresh store bootstrapped with a
two-type schema gets the fingerprint and both data tables. -/
theorem bootstrap_cases_witness :
    bootstrap c1Schema emptyState =
      .ok { emptyState with
            meta := some (mirrorBlob "MIRROR_v1" c1Schema)
            structural := true
            dataTables := ["data_Repository", "data_Issue"] } :=
  (bootstrap_cases c1Schema emptyState).2.2.1 rfl (by decide)

/-! ## C8: the schema fingerprint -/

/-- A character that JSON string escaping leaves unchanged. -/
def jsonPlainChar (c : Char) : Bool :=
  c != '"' && c != '\\' && decide (32 ≤ c.toNat)

theorem jsonEscapeChar_plain {c : Char} (h : jsonPlainChar c = true) :
    jsonEscapeChar c = [c] := by
  simp only [jsonPlainChar, Bool.and_eq_true, bne_iff_ne, ne_eq,
    decide_eq_true_eq] at h
  obtain ⟨⟨h1, h2⟩, h3⟩ := h
  simp only [jsonEscapeChar, if_neg h1, if_neg h2,
    if_neg (by omega : ¬ c.toNat < 32)]

theorem flatMap_escape_plain {l : List Char} (h : l.all jsonPlainChar = true) :
    l.flatMap jsonEscapeChar = l := by
  induction l with
  | nil => rfl
  | cons c rest ih =>
      simp only [List.all_cons, Bool.and_eq_true] at h
      simp [List.flatMap_cons, jsonEscapeChar_plain h.1, ih h.2]

theorem insertPair_eq (p : String × JsonValue) (l : List (String × JsonValue)) :
    insertPair p l =
      List.orderedInsert (fun a b : String × JsonValue => a.1 ≤ b.1) p l := by
  induction l with
  | nil => rfl
  | cons q rest ih =>
      by_cases h : p.1 ≤ q.1
      · simp [insertPair, List.orderedInsert, h, ih]
      · simp [insertPair, List.orderedInsert, h, ih]

theorem sortPairs_eq (l : List (String × JsonValue)) :
    sortPairs l = l.insertionSort (fun a b => a.1 ≤ b.1) := by
  induction l with
  | nil => rfl
  | cons p rest ih => simp only [sortPairs, List.insertionSort, ih, insertPair_eq]

instance : IsTotal (String × JsonValue) (fun a b => a.1 ≤ b.1) :=
  ⟨fun a b => le_total a.1 b.1⟩

instance : IsTrans (String × JsonValue) (fun a b => a.1 ≤ b.1) :=
  ⟨fun _ _ _ h1 h2 => le_trans h1 h2⟩

instance : IsAntisymm (String × JsonValue) (fun a b => a.1 < b.1) :=
  ⟨fun _ _ h1 h2 => absurd h2 (lt_asymm h1)⟩

theorem sortPairs_perm (l : List (String × JsonValue)) : (sortPairs l).Perm l := by
  rw [sortPairs_eq]
  exact List.perm_insertionSort _ l

/-- Key-sorted serialization order is invariant under permutation of the
input fields, provided the keys are distinct. -/
theorem sortPairs_perm_nodup_eq {l1 l2 : List (String × JsonValue)}
    (hp : l1.Perm l2) (hnd : (l1.map (·.1)).Nodup) :
    sortPairs l1 = sortPairs l2 := by
  have hp' : (sortPairs l1).Perm (sortPairs l2) :=
    ((sortPairs_perm l1).trans hp).trans (sortPairs_perm l2).symm
  have hs1 : (sortPairs l1).Sorted (fun a b : String × JsonValue => a.1 ≤ b.1) := by
    rw [sortPairs_eq]; exact List.sorted_insertionSort _ l1
  have hs2 : (sortPairs l2).Sorted (fun a b : String × JsonValue => a.1 ≤ b.1) := by
    rw [sortPairs_eq]; exact List.sorted_insertionSort _ l2
  have hnd1 : ((sortPairs l1).map (·.1)).Nodup :=
    (((sortPairs_perm l1).map (·.1)).nodup_iff).mpr hnd
  have hnd2 : ((sortPairs l2).map (·.1)).Nodup :=
    (((sortPairs_perm l2).map (·.1)).nodup_iff).mpr
      ((hp.map (·.1)).nodup_iff.mp hnd)
  have hlt1 : (sortPairs l1).Sorted (fun a b : String × JsonValue => a.1 < b.1) := by
    have hne := (List.pairwise_map).mp hnd1
    exact (hs1.and hne).imp (fun h => lt_of_le_of_ne h.1 h.2)
  have hlt2 : (sortPairs l2).Sorted (fun a b : String × JsonValue => a.1 < b.1) := by
    have hne := (List.pairwise_map).mp hnd2
    exact (hs2.and hne).imp (fun h => lt_of_le_of_ne h.1 h.2)
  exact List.eq_of_perm_of_sorted hp' hlt1 hlt2

/-- The fingerprint splits into a version-independent prefix and the
escaped version string followed by `"` and the closing brace. -/
theorem mirrorBlobChars_decomp (v : String) (s : Schema) :
    mirrorBlobChars v s =
      (('\x7b' :: (jsonStringChars "schema" ++ ':' :: jsonChars (schemaToJson s)))
          ++ (',' :: jsonStringChars "version" ++ [':', '"']))
        ++ (v.data.flatMap jsonEscapeChar ++ ['"', '\x7d']) := by
  show '\x7b' ::
      (((jsonStringChars "schema" ++ ':' :: jsonChars (schemaToJson s)) ++
          ',' :: (jsonStringChars "version" ++ ':' ::
            ('"' :: (v.data.flatMap jsonEscapeChar ++ ['"'])))) ++ ['\x7d']) = _
  simp

theorem mirrorBlob_version_inj {v1 v2 : String} (s : Schema)
    (h1 : v1.data.all jsonPlainChar = true)
    (h2 : v2.data.all jsonPlainChar = true)
    (heq : mirrorBlob v1 s = mirrorBlob v2 s) : v1 = v2 := by
  have e1 : mirrorBlobChars v1 s = mirrorBlobChars v2 s :=
    congrArg String.data heq
  rw [mirrorBlobChars_decomp, mirrorBlobChars_decomp,
    flatMap_escape_plain h1, flatMap_escape_plain h2] at e1
  have e2 := List.append_cancel_left e1
  have e3 := List.append_cancel_right e2
  cases v1; cases v2
  exact congrArg String.mk (by simpa using e3)

/-- C8: the meta blob is the canonical key-sorted JSON encoding of
`(version, schema)`: it is invariant under permutation of the schema's
(distinct) type keys, so equal schemas yield identical meta rows; and a
store bootstrapped under one version string refuses, with
`IncompatibleSchema`, a bootstrap under any different version string (for
version strings needing no JSON escapes). -/
theorem mirrorBlob_canonical (v : String) (s1 s2 : Schema)
    (hp : s1.Perm s2) (hnd : (s1.map (·.1)).Nodup) :
    mirrorBlob v s1 = mirrorBlob v s2 ∧
    (∀ (v1 v2 : String) (s : Schema) (st1 : State),
      v1.data.all jsonPlainChar = true → v2.data.all jsonPlainChar = true →
      v1 ≠ v2 →
      bootstrapWith v1 s emptyState = .ok st1 →
      bootstrapWith v2 s st1 = .error .incompatibleSchema) := by
  constructor
  · have hkeys : ((s1.map (fun p => (p.1, nodeTyToJson p.2))).map (·.1)).Nodup := by
      rw [List.map_map]
      exact hnd
    have := sortPairs_perm_nodup_eq
      (hp.map (fun p => (p.1, nodeTyToJson p.2))) hkeys
    unfold mirrorBlob mirrorBlobChars schemaToJson
    rw [this]
  · intro v1 v2 s st1 hp1 hp2 hne hboot
    have hmeta : st1.meta = some (mirrorBlob v1 s) := by
      simp only [bootstrapWith, emptyState] at hboot
      cases hcd : createDataTables s with
      | error e => rw [hcd] at hboot; cases hboot
      | ok tables =>
          rw [hcd] at hboot
          injection hboot with h
          rw [← h]
    have hblobne : (mirrorBlob v1 s == mirrorBlob v2 s) = false := by
      apply beq_eq_false_iff_ne.mpr
      intro hb
      exact hne (mirrorBlob_version_inj s hp1 hp2 hb)
    simp [bootstrapWith, hmeta, hblobne]

/-- Witness for `mirrorBlob_canonical`: permuting a two-type schema leaves
the blob unchanged, and a store written under version `"0.1.0"` (the
predecessor module's string) rejects a `"MIRROR_v1"` bootstrap. -/
theorem mirrorBlob_canonical_witness :
    mirrorBlob "MIRROR_v1"
        [("B", .union ["A"]), ("A", .object [("id", .idField)])] =
      mirrorBlob "MIRROR_v1"
        [("A", .object [("id", .idField)]), ("B", .union ["A"])] ∧
    bootstrapWith "MIRROR_v1" c1Schema
        { emptyState with
          meta := some (mirrorBlob "0.1.0" c1Schema)
          structural := true
          dataTables := ["data_Repository", "data_Issue"] } =
      .error .incompatibleSchema := by
  have h := mirrorBlob_canonical "MIRROR_v1"
    [("B", .union ["A"]), ("A", .object [("id", .idField)])]
    [("A", .object [("id", .idField)]), ("B", .union ["A"])]
    (List.Perm.swap _ _ _) (by decide)
  refine ⟨h.1, ?_⟩
  exact h.2 "0.1.0" "MIRROR_v1" c1Schema _ (by decide) (by decide)
    (by decide) rfl

/-! ## Reachable states and their invariants -/

/-- The `child_id` values of one connection's entries, in table order. -/
def entryChildIds (st : State) (cid : Nat) : List String :=
  (st.connection_entries.filter (fun e => e.connection_id == cid)).map
    (·.child_id)

/-- The fieldnames of the `connections` rows owned by `oid`, in table
order: the mirror's realization of "the set of (owner, field) rows". -/
def connFieldnames (st : State) (oid : String) : List String :=
  (st.connections.filter (fun c => c.object_id == oid)).map (·.fieldname)

/-- `[a, a+1, …, a+n-1]`. -/
def seqFrom (a : Int) : Nat → List Int
  | 0 => []
  | n + 1 => a :: seqFrom (a + 1) n

/-- The claim's phrasing: indices form a strictly increasing sequence
starting at 1 (vacuously for no entries). -/
def strictlyIncreasingFromOne : List Int → Prop
  | [] => True
  | a :: rest => a = 1 ∧ List.Chain' (· < ·) (a :: rest)

theorem seqFrom_snoc : ∀ (n : Nat) (a : Int),
    seqFrom a n ++ [a + n] = seqFrom a (n + 1) := by
  intro n
  induction n with
  | zero => intro a; simp [seqFrom]
  | succ m ih =>
      intro a
      show a :: seqFrom (a + 1) m ++ [a + (m + 1)] = a :: seqFrom (a + 1) (m + 1)
      rw [List.cons_append, ← ih (a + 1)]
      congr 2
      ring

theorem seqFrom_length : ∀ (n : Nat) (a : Int), (seqFrom a n).length = n := by
  intro n
  induction n with
  | zero => intro a; rfl
  | succ m ih => intro a; simp [seqFrom, ih]

theorem seqFrom_append : ∀ (m n : Nat) (a : Int),
    seqFrom a (m + n) = seqFrom a m ++ seqFrom (a + m) n := by
  intro m
  induction m with
  | zero => intro n a; simp [seqFrom]
  | succ k ih =>
      intro n a
      show seqFrom a (k + 1 + n) = (a :: seqFrom (a + 1) k) ++ seqFrom (a + (k + 1)) n
      have : k + 1 + n = (k + n) + 1 := by omega
      rw [this]
      show a :: seqFrom (a + 1) (k + n) = _
      rw [ih n (a + 1), List.cons_append]
      congr 3
      ring

theorem chain'_seqFrom : ∀ (n : Nat) (a : Int),
    List.Chain' (· < ·) (seqFrom a n) := by
  intro n
  induction n with
  | zero => intro a; exact List.chain'_nil
  | succ m ih =>
      intro a
      cases m with
      | zero => exact List.chain'_singleton a
      | succ k =>
          show List.Chain' (· < ·) (a :: (a + 1) :: seqFrom (a + 1 + 1) k)
          exact List.Chain'.cons (by omega) (ih (a + 1))

theorem strictlyIncreasingFromOne_seqFrom (n : Nat) :
    strictlyIncreasingFromOne (seqFrom 1 n) := by
  cases n with
  | zero => trivial
  | succ m => exact ⟨rfl, chain'_seqFrom (m + 1) 1⟩

theorem seqFrom_foldl_max : ∀ (n : Nat) (a acc : Int), acc < a →
    (seqFrom a (n + 1)).foldl max acc = a + n := by
  intro n
  induction n with
  | zero => intro a acc h; show max acc a = a + 0; omega
  | succ m ih =>
      intro a acc h
      show (seqFrom (a + 1) (m + 1)).foldl max (max acc a) = a + (m + 1)
      have := ih (a + 1) (max acc a) (by omega)
      rw [this]
      ring

theorem maxIdx_of_seq (st : State) (cid : Nat) (k : Nat)
    (h : entryIdxs st cid = seqFrom 1 k) : maxIdx st cid = (k : Int) := by
  cases k with
  | zero => simp only [maxIdx, h, seqFrom]; rfl
  | succ m =>
      cases m with
      | zero => simp only [maxIdx, h, seqFrom]; rfl
      | succ m' =>
          have : entryIdxs st cid = 1 :: seqFrom 2 (m' + 1) := h
          simp only [maxIdx, this]
          have := seqFrom_foldl_max m' 2 1 (by omega)
          rw [this]
          push_cast
          ring

/-- The internal invariant of API-reachable mirror stores. -/
structure MirrorInv (sch : Schema) (st : State) : Prop where
  obj_nodup : (st.objects.map (·.id)).Nodup
  obj_object_type : ∀ o ∈ st.objects, ∃ fields,
      lookupType sch o.typename = some (.object fields)
  conn_rowid_lt : ∀ c ∈ st.connections, c.rowid < st.nextConnectionRowid
  conn_rowid_nodup : (st.connections.map (·.rowid)).Nodup
  conn_owner : ∀ c ∈ st.connections, ∃ o ∈ st.objects, o.id = c.object_id
  conn_fields : ∀ o ∈ st.objects,
      connFieldnames st o.id = connectionFieldnamesOfType sch o.typename
  conn_fresh : ∀ c ∈ st.connections, c.last_update = none →
      c.total_count = none ∧ c.has_next_page = none ∧ c.end_cursor = none
  entry_conn : ∀ e ∈ st.connection_entries,
      ∃ c ∈ st.connections, c.rowid = e.connection_id
  entry_seq : ∀ cid, entryIdxs st cid = seqFrom 1 (entryIdxs st cid).length

/-- States reachable from a fresh store through the public mirror API
(`_initialize`, `registerObject`, `_createUpdate`, `_updateConnection`;
the update id passed to `_updateConnection` must reference an existing
update, as its foreign key demands). -/
inductive Reachable (sch : Schema) : State → Prop where
  | boot (st : State) : bootstrap sch emptyState = .ok st → Reachable sch st
  | register (st st' : State) (t i : String) : Reachable sch st →
      registerObject sch t i st = .ok st' → Reachable sch st'
  | updateConn (st st' : State) (u : Nat) (oid f : String)
      (r : ConnectionFieldResult) : Reachable sch st →
      (∃ row ∈ st.updates, row.rowid = u) →
      updateConnection sch u oid f r st = .ok st' → Reachable sch st'
  | newUpdate (st : State) (ms : Int) : Reachable sch st →
      Reachable sch (createUpdate ms st).2

/-- The `connections` rows inserted for a newly registered object `id`
with connection fieldnames `fs`, starting at rowid `n`. -/
def mkConnRows (id : String) : List String → Nat → List ConnectionRow
  | [], _ => []
  | f :: rest, n => ⟨n, id, f, none, none, none, none⟩ :: mkConnRows id rest (n + 1)

theorem addConnectionRows_eq : ∀ (fs : List String) (id : String) (st : State),
    addConnectionRows id fs st =
      { st with
        connections := st.connections ++ mkConnRows id fs st.nextConnectionRowid
        nextConnectionRowid := st.nextConnectionRowid + fs.length } := by
  intro fs
  induction fs with
  | nil => intro id st; simp [addConnectionRows, mkConnRows]
  | cons f rest ih =>
      intro id st
      show addConnectionRows id rest (addConnectionRow st id f) = _
      rw [ih]
      simp only [addConnectionRow, mkConnRows, List.append_assoc,
        List.singleton_append, List.length_cons]
      congr 1
      omega

theorem mkConnRows_mem : ∀ (fs : List String) (n : Nat) (id : String)
    (c : ConnectionRow), c ∈ mkConnRows id fs n →
    c.object_id = id ∧ c.last_update = none ∧ c.total_count = none ∧
      c.has_next_page = none ∧ c.end_cursor = none ∧
      n ≤ c.rowid ∧ c.rowid < n + fs.length := by
  intro fs
  induction fs with
  | nil => intro n id c hc; cases hc
  | cons f rest ih =>
      intro n id c hc
      rcases List.mem_cons.mp hc with rfl | hc'
      · exact ⟨rfl, rfl, rfl, rfl, rfl, le_refl n, by simp⟩
      · obtain ⟨h1, h2, h3, h4, h5, h6, h7⟩ := ih (n + 1) id c hc'
        exact ⟨h1, h2, h3, h4, h5, by omega, by simp; omega⟩

theorem mkConnRows_fieldnames : ∀ (fs : List String) (n : Nat) (id : String),
    (mkConnRows id fs n).map (·.fieldname) = fs := by
  intro fs
  induction fs with
  | nil => intro n id; rfl
  | cons f rest ih => intro n id; simp [mkConnRows, ih]

theorem mkConnRows_rowids_nodup : ∀ (fs : List String) (n : Nat) (id : String),
    ((mkConnRows id fs n).map (·.rowid)).Nodup := by
  intro fs
  induction fs with
  | nil => intro n id; exact List.nodup_nil
  | cons f rest ih =>
      intro n id
      simp only [mkConnRows, List.map_cons, List.nodup_cons]
      refine ⟨?_, ih (n + 1) id⟩
      intro hmem
      simp only [List.mem_map] at hmem
      obtain ⟨c, hc, hr⟩ := hmem
      have := (mkConnRows_mem rest (n + 1) id c hc).2.2.2.2.2.1
      omega

/-- Complete case analysis of a successful
`_nontransactionallyRegisterObject`. -/
theorem register_ok_cases {sch : Schema} {t i : String} {st st' : State}
    (h : nontransactionallyRegisterObject sch t i st = .ok st') :
    (st' = st ∧ ∃ o ∈ st.objects, o.id = i ∧ o.typename = t) ∨
    ((∀ o ∈ st.objects, o.id ≠ i) ∧
      ∃ fields, lookupType sch t = some (.object fields) ∧
        st' = { st with
                objects := st.objects ++ [⟨i, none, t⟩]
                connections := st.connections ++
                  mkConnRows i ((fields.filter (fun p => p.2.isConn)).map (·.1))
                    st.nextConnectionRowid
                nextConnectionRowid := st.nextConnectionRowid +
                  ((fields.filter (fun p => p.2.isConn)).map (·.1)).length }) := by
  unfold nontransactionallyRegisterObject at h
  cases hf : st.objects.find? (fun o => o.id == i) with
  | some o =>
      obtain ⟨hmem, hp⟩ := find?_map_eq_some hf
      have hid : o.id = i := by simpa using hp
      have hmap : (st.objects.find? (fun o => o.id == i)).map (·.typename) =
          some o.typename := by rw [hf]; rfl
      rw [hmap] at h
      by_cases hb : o.typename = t
      · left
        simp only [hb, beq_self_eq_true, if_pos, Except.ok.injEq] at h
        exact ⟨h.symm, o, hmem, hid, hb⟩
      · exfalso
        simp [show (o.typename == t) = false by simpa using hb] at h
  | none =>
      rw [show (st.objects.find? (fun o => o.id == i)).map (·.typename) = none
        from by rw [hf]; rfl] at h
      rw [List.find?_eq_none] at hf
      cases hl : lookupType sch t with
      | none => rw [hl] at h; simp at h
      | some nt =>
          rw [hl] at h
          cases nt with
          | union cs => simp at h
          | object fields =>
              right
              refine ⟨fun o ho => by simpa using hf o ho, fields, rfl, ?_⟩
              simp only [Except.ok.injEq] at h
              rw [← h, addConnectionRows_eq]

theorem entryIdxs_congr {st st' : State}
    (h : st'.connection_entries = st.connection_entries) :
    ∀ cid, entryIdxs st' cid = entryIdxs st cid := by
  intro cid
  simp [entryIdxs, h]

def connFieldnamesL (l : List ConnectionRow) (oid : String) : List String :=
  (l.filter (fun c => c.object_id == oid)).map (·.fieldname)

theorem connFieldnames_eq_L (st : State) (oid : String) :
    connFieldnames st oid = connFieldnamesL st.connections oid := rfl

theorem connFieldnamesL_append (l1 l2 : List ConnectionRow) (oid : String) :
    connFieldnamesL (l1 ++ l2) oid =
      connFieldnamesL l1 oid ++ connFieldnamesL l2 oid := by
  simp [connFieldnamesL, List.filter_append]

theorem connFieldnamesL_nil {l : List ConnectionRow} {oid : String}
    (h : ∀ c ∈ l, c.object_id ≠ oid) : connFieldnamesL l oid = [] := by
  have : l.filter (fun c => c.object_id == oid) = [] := by
    rw [List.filter_eq_nil_iff]
    intro c hc
    simpa using h c hc
  simp [connFieldnamesL, this]

theorem connFieldnamesL_mkConnRows (i : String) (fs : List String) (n : Nat) :
    connFieldnamesL (mkConnRows i fs n) i = fs := by
  have : (mkConnRows i fs n).filter (fun c => c.object_id == i) =
      mkConnRows i fs n := by
    rw [List.filter_eq_self]
    intro c hc
    simp [(mkConnRows_mem fs n i c hc).1]
  rw [connFieldnamesL, this, mkConnRows_fieldnames]

theorem register_preserves {sch : Schema} {t i : String} {st st' : State}
    (hinv : MirrorInv sch st)
    (h : nontransactionallyRegisterObject sch t i st = .ok st') :
    MirrorInv sch st' ∧
    st'.connection_entries = st.connection_entries ∧
    st'.updates = st.updates ∧
    (∃ tl, st'.objects = st.objects ++ tl) ∧
    (∃ tl, st'.connections = st.connections ++ tl) ∧
    st.nextConnectionRowid ≤ st'.nextConnectionRowid ∧
    (∃ o ∈ st'.objects, o.id = i ∧ o.typename = t) ∧
    (∀ oid, (∃ o ∈ st.objects, o.id = oid) →
      connFieldnames st' oid = connFieldnames st oid) := by
  rcases register_ok_cases h with ⟨rfl, hex⟩ | ⟨hfresh, fields, hl, rfl⟩
  · exact ⟨hinv, rfl, rfl, ⟨[], by simp⟩, ⟨[], by simp⟩, le_refl _, hex,
      fun oid _ => rfl⟩
  · have hcownerne : ∀ c ∈ st.connections, c.object_id ≠ i := by
      intro c hc he
      obtain ⟨o, ho, hoid⟩ := hinv.conn_owner c hc
      exact hfresh o ho (hoid.trans he)
    have hmk := mkConnRows_mem
      ((fields.filter (fun p => p.2.isConn)).map (·.1))
      st.nextConnectionRowid i
    have hcf : connectionFieldnamesOfType sch t =
        (fields.filter (fun p => p.2.isConn)).map (·.1) := by
      unfold connectionFieldnamesOfType
      rw [hl]
    refine ⟨?_, rfl, rfl, ⟨_, rfl⟩, ⟨_, rfl⟩, by simp, ?_, ?_⟩
    · refine
        { obj_nodup := ?_
          obj_object_type := ?_
          conn_rowid_lt := ?_
          conn_rowid_nodup := ?_
          conn_owner := ?_
          conn_fields := ?_
          conn_fresh := ?_
          entry_conn := ?_
          entry_seq := ?_ }
      · simp only [List.map_append, List.nodup_append]
        refine ⟨hinv.obj_nodup, by simp, ?_⟩
        intro a ha hb
        simp only [List.mem_map] at ha
        obtain ⟨o, ho, hoid⟩ := ha
        simp only [List.map_cons, List.map_nil, List.mem_singleton] at hb
        exact hfresh o ho (by rw [hoid, hb])
      · intro o ho
        rcases List.mem_append.mp ho with ho | ho
        · exact hinv.obj_object_type o ho
        · rw [List.mem_singleton] at ho
          subst ho
          exact ⟨fields, hl⟩
      · intro c hc
        rcases List.mem_append.mp hc with hc | hc
        · have := hinv.conn_rowid_lt c hc
          simp only []
          omega
        · have := (hmk c hc).2.2.2.2.2.2
          simpa using this
      · simp only [List.map_append, List.nodup_append]
        refine ⟨hinv.conn_rowid_nodup, mkConnRows_rowids_nodup _ _ _, ?_⟩
        intro a ha hb
        simp only [List.mem_map] at ha hb
        obtain ⟨c, hc, hr⟩ := ha
        obtain ⟨c', hc', hr'⟩ := hb
        have h1 := hinv.conn_rowid_lt c hc
        have h2 := (hmk c' hc').2.2.2.2.2.1
        omega
      · intro c hc
        rcases List.mem_append.mp hc with hc | hc
        · obtain ⟨o, ho, hoid⟩ := hinv.conn_owner c hc
          exact ⟨o, List.mem_append_left _ ho, hoid⟩
        · exact ⟨⟨i, none, t⟩, List.mem_append_right _ (by simp),
            ((hmk c hc).1).symm⟩
      · intro o ho
        rcases List.mem_append.mp ho with ho | ho
        · have hne : o.id ≠ i := hfresh o ho
          rw [connFieldnames_eq_L]
          simp only []
          rw [connFieldnamesL_append]
          rw [connFieldnamesL_nil (fun c hc he =>
            hne ((((hmk c hc).1).symm.trans he).symm))]
          rw [List.append_nil]
          exact hinv.conn_fields o ho
        · rw [List.mem_singleton] at ho
          subst ho
          rw [connFieldnames_eq_L]
          simp only []
          rw [connFieldnamesL_append,
            connFieldnamesL_nil (fun c hc => hcownerne c hc),
            List.nil_append, connFieldnamesL_mkConnRows, hcf]
      · intro c hc hlu
        rcases List.mem_append.mp hc with hc | hc
        · exact hinv.conn_fresh c hc hlu
        · obtain ⟨_, _, h3, h4, h5, _, _⟩ := hmk c hc
          exact ⟨h3, h4, h5⟩
      · intro e he
        obtain ⟨c, hc, hr⟩ := hinv.entry_conn e he
        exact ⟨c, List.mem_append_left _ hc, hr⟩
      · intro cid
        have hcongr := @entryIdxs_congr st { st with
          objects := st.objects ++ [⟨i, none, t⟩]
          connections := st.connections ++
            mkConnRows i ((fields.filter (fun p => p.2.isConn)).map (·.1))
              st.nextConnectionRowid
          nextConnectionRowid := st.nextConnectionRowid +
            ((fields.filter (fun p => p.2.isConn)).map (·.1)).length } rfl cid
        rw [hcongr]
        exact hinv.entry_seq cid
    · exact ⟨⟨i, none, t⟩, List.mem_append_right _ (by simp), rfl, rfl⟩
    · intro oid hoid
      obtain ⟨o, ho, hoid'⟩ := hoid
      have hne : oid ≠ i := by
        intro he
        exact hfresh o ho (hoid'.trans he)
      rw [connFieldnames_eq_L, connFieldnames_eq_L]
      simp only []
      rw [connFieldnamesL_append]
      rw [connFieldnamesL_nil (fun c hc he =>
        hne ((((hmk c hc).1).symm.trans he).symm))]
      rw [List.append_nil]

/-! ## `_updateConnection` invariant lemmas -/

/-- The per-row effect of the `UPDATE connections … WHERE rowid = :cid`
statement. -/
def connRowModify (cid : Nat) (u : Nat) (r : ConnectionFieldResult)
    (c : ConnectionRow) : ConnectionRow :=
  if c.rowid == cid then
    { c with
      last_update := some u
      total_count := some r.totalCount
      has_next_page := some r.pageInfo.hasNextPage
      end_cursor := r.pageInfo.endCursor }
  else c

theorem updateConnRow_eq (st : State) (cid u : Nat)
    (r : ConnectionFieldResult) :
    updateConnRow st cid u r =
      { st with connections := st.connections.map (connRowModify cid u r) } :=
  rfl

theorem connRowModify_rowid (cid u : Nat) (r : ConnectionFieldResult)
    (c : ConnectionRow) : (connRowModify cid u r c).rowid = c.rowid := by
  unfold connRowModify
  split <;> rfl

theorem connRowModify_object_id (cid u : Nat) (r : ConnectionFieldResult)
    (c : ConnectionRow) :
    (connRowModify cid u r c).object_id = c.object_id := by
  unfold connRowModify
  split <;> rfl

theorem connRowModify_fieldname (cid u : Nat) (r : ConnectionFieldResult)
    (c : ConnectionRow) :
    (connRowModify cid u r c).fieldname = c.fieldname := by
  unfold connRowModify
  split <;> rfl

theorem find?_map_pred {α : Type} (g : α → α) (p : α → Bool)
    (h : ∀ a, p (g a) = p a) :
    ∀ l : List α, (l.map g).find? p = (l.find? p).map g := by
  intro l
  induction l with
  | nil => rfl
  | cons a rest ih =>
      cases hp : p a with
      | true =>
          have hga : p (g a) = true := by rw [h a]; exact hp
          simp [List.find?, hp, hga]
      | false =>
          have hga : p (g a) = false := by rw [h a]; exact hp
          simp [List.find?, hp, hga, ih]

theorem find?_append_some {α : Type} {p : α → Bool} {l l' : List α} {x : α}
    (h : l.find? p = some x) : (l ++ l').find? p = some x := by
  induction l with
  | nil => cases h
  | cons a rest ih =>
      cases hp : p a with
      | true =>
          simp only [List.find?, hp] at h
          simp only [List.cons_append, List.find?, hp]
          exact h
      | false =>
          simp only [List.find?, hp] at h
          simp only [List.cons_append, List.find?, hp]
          exact ih h

theorem connFieldnamesL_map_modify (cid u : Nat) (r : ConnectionFieldResult)
    (l : List ConnectionRow) (oid : String) :
    connFieldnamesL (l.map (connRowModify cid u r)) oid =
      connFieldnamesL l oid := by
  induction l with
  | nil => rfl
  | cons c rest ih =>
      unfold connFieldnamesL at *
      cases hc : (c.object_id == oid) with
      | true =>
          simp [connRowModify_object_id, connRowModify_fieldname, hc, ih]
      | false =>
          simp [connRowModify_object_id, connRowModify_fieldname, hc, ih]

theorem findConn_updateConnRow (st : State) (cid u : Nat)
    (r : ConnectionFieldResult) (oid f : String) :
    findConn (updateConnRow st cid u r) oid f =
      (findConn st oid f).map (connRowModify cid u r) := by
  unfold findConn
  rw [updateConnRow_eq]
  exact find?_map_pred _ _
    (fun c => by rw [connRowModify_object_id, connRowModify_fieldname]) _

theorem updateConnRow_inv {sch : Schema} {st : State} (cid u : Nat)
    (r : ConnectionFieldResult) (hinv : MirrorInv sch st) :
    MirrorInv sch (updateConnRow st cid u r) := by
  rw [updateConnRow_eq]
  have hrowids : (st.connections.map (connRowModify cid u r)).map (·.rowid) =
      st.connections.map (·.rowid) := by
    rw [List.map_map]
    exact List.map_congr_left (fun c _ => connRowModify_rowid cid u r c)
  refine
    { obj_nodup := hinv.obj_nodup
      obj_object_type := hinv.obj_object_type
      conn_rowid_lt := ?_
      conn_rowid_nodup := ?_
      conn_owner := ?_
      conn_fields := ?_
      conn_fresh := ?_
      entry_conn := ?_
      entry_seq := ?_ }
  · intro c' hc'
    simp only [List.mem_map] at hc'
    obtain ⟨c, hc, rfl⟩ := hc'
    rw [connRowModify_rowid]
    exact hinv.conn_rowid_lt c hc
  · simpa only [hrowids] using hinv.conn_rowid_nodup
  · intro c' hc'
    simp only [List.mem_map] at hc'
    obtain ⟨c, hc, rfl⟩ := hc'
    rw [connRowModify_object_id]
    exact hinv.conn_owner c hc
  · intro o ho
    rw [connFieldnames_eq_L]
    simp only []
    rw [connFieldnamesL_map_modify]
    exact hinv.conn_fields o ho
  · intro c' hc' hlu
    simp only [List.mem_map] at hc'
    obtain ⟨c, hc, rfl⟩ := hc'
    unfold connRowModify at hlu ⊢
    by_cases hb : (c.rowid == cid) = true
    · rw [if_pos hb] at hlu
      cases hlu
    · rw [if_neg (by simpa using hb)] at hlu ⊢
      exact hinv.conn_fresh c hc hlu
  · intro e he
    obtain ⟨c, hc, hr⟩ := hinv.entry_conn e he
    exact ⟨connRowModify cid u r c, List.mem_map_of_mem _ hc,
      by rw [connRowModify_rowid]; exact hr⟩
  · intro cid'
    have := @entryIdxs_congr st
      { st with connections := st.connections.map (connRowModify cid u r) }
      rfl cid'
    rw [this]
    exact hinv.entry_seq cid'

theorem entryIdxs_addEntry (st : State) (cid : Nat) (i : Int) (ch : String) :
    entryIdxs (addEntryRow st cid i ch) cid = entryIdxs st cid ++ [i] := by
  simp [entryIdxs, addEntryRow, List.filter_append]

theorem entryIdxs_addEntry_ne (st : State) {cid cid' : Nat} (hne : cid' ≠ cid)
    (i : Int) (ch : String) :
    entryIdxs (addEntryRow st cid i ch) cid' = entryIdxs st cid' := by
  have hb : (cid == cid') = false := by
    simp only [beq_eq_false_iff_ne, ne_eq]
    exact fun h => hne h.symm
  simp [entryIdxs, addEntryRow, List.filter_append, hb]

theorem entryChildIds_addEntry (st : State) (cid : Nat) (i : Int)
    (ch : String) :
    entryChildIds (addEntryRow st cid i ch) cid =
      entryChildIds st cid ++ [ch] := by
  simp [entryChildIds, addEntryRow, List.filter_append]

theorem entryChildIds_congr {st st' : State}
    (h : st'.connection_entries = st.connection_entries) :
    ∀ cid, entryChildIds st' cid = entryChildIds st cid := by
  intro cid
  simp [entryChildIds, h]

theorem addEntry_inv {sch : Schema} {st : State} (cid : Nat) (i : Int)
    (ch : String) (hinv : MirrorInv sch st)
    (hcid : ∃ c ∈ st.connections, c.rowid = cid)
    (hi : i = ((entryIdxs st cid).length : Int) + 1) :
    MirrorInv sch (addEntryRow st cid i ch) := by
  refine
    { obj_nodup := hinv.obj_nodup
      obj_object_type := hinv.obj_object_type
      conn_rowid_lt := hinv.conn_rowid_lt
      conn_rowid_nodup := hinv.conn_rowid_nodup
      conn_owner := hinv.conn_owner
      conn_fields := hinv.conn_fields
      conn_fresh := hinv.conn_fresh
      entry_conn := ?_
      entry_seq := ?_ }
  · intro e he
    rcases List.mem_append.mp he with he | he
    · exact hinv.entry_conn e he
    · rw [List.mem_singleton] at he
      subst he
      exact hcid
  · intro c'
    by_cases hc' : c' = cid
    · subst hc'
      obtain hk := hinv.entry_seq c'
      generalize hgk : (entryIdxs st c').length = k at hk hi
      rw [entryIdxs_addEntry, hk, hi]
      have hlen : (seqFrom 1 k ++ [(k : Int) + 1]).length = k + 1 := by
        simp [seqFrom_length]
      rw [hlen]
      rw [show ((k : Int) + 1) = 1 + (k : Int) from by ring]
      exact seqFrom_snoc k 1
    · rw [entryIdxs_addEntry_ne st hc']
      exact hinv.entry_seq c'

theorem insertEntries_props (sch : Schema) (cid : Nat) :
    ∀ (nodes : List NodeFieldResult) (k : Nat) (st : State),
    MirrorInv sch st →
    (∃ c ∈ st.connections, c.rowid = cid) →
    entryIdxs st cid = seqFrom 1 k →
    ∀ st', insertEntries sch cid ((k : Int) + 1) nodes st = .ok st' →
      MirrorInv sch st' ∧
      entryIdxs st' cid = seqFrom 1 (k + nodes.length) ∧
      (∀ cid', cid' ≠ cid → entryIdxs st' cid' = entryIdxs st cid') ∧
      entryChildIds st' cid = entryChildIds st cid ++ nodes.map (·.id) ∧
      (∃ tl, st'.objects = st.objects ++ tl) ∧
      (∃ tl, st'.connections = st.connections ++ tl) ∧
      st'.updates = st.updates ∧
      (∀ n ∈ nodes, ∃ o ∈ st'.objects, o.id = n.id ∧ o.typename = n.typename) ∧
      (∀ oid, (∃ o ∈ st.objects, o.id = oid) →
        connFieldnames st' oid = connFieldnames st oid) := by
  intro nodes
  induction nodes with
  | nil =>
      intro k st hinv hcid hk st' h
      simp only [insertEntries, Except.ok.injEq] at h
      subst h
      exact ⟨hinv, by simpa using hk, fun _ _ => rfl, by simp,
        ⟨[], by simp⟩, ⟨[], by simp⟩, rfl, by simp, fun _ _ => rfl⟩
  | cons n rest ih =>
      intro k st hinv hcid hk st' h
      unfold insertEntries at h
      cases hr : nontransactionallyRegisterObject sch n.typename n.id st with
      | error e => rw [hr] at h; cases h
      | ok st1 =>
          rw [hr] at h
          obtain ⟨hinv1, hent1, hupd1, ⟨tlo, hobj1⟩, ⟨tlc, hconn1⟩, hnext1,
            hpres1, hcf1⟩ := register_preserves hinv hr
          have hidx1 := entryIdxs_congr hent1
          have hchild1 := entryChildIds_congr hent1
          have hcid1 : ∃ c ∈ st1.connections, c.rowid = cid := by
            obtain ⟨c, hc, hcr⟩ := hcid
            exact ⟨c, by rw [hconn1]; exact List.mem_append_left _ hc, hcr⟩
          have hk1 : entryIdxs st1 cid = seqFrom 1 k := by
            rw [hidx1]; exact hk
          have hlen1 : (entryIdxs st1 cid).length = k := by
            rw [hk1, seqFrom_length]
          have hinv2 : MirrorInv sch
              (addEntryRow st1 cid ((k : Int) + 1) n.id) := by
            refine addEntry_inv cid _ n.id hinv1 hcid1 ?_
            rw [hlen1]
          have hcid2 : ∃ c ∈ (addEntryRow st1 cid ((k : Int) + 1) n.id).connections,
              c.rowid = cid := hcid1
          have hk2 : entryIdxs (addEntryRow st1 cid ((k : Int) + 1) n.id) cid =
              seqFrom 1 (k + 1) := by
            rw [entryIdxs_addEntry, hk1, ← seqFrom_snoc]
            congr 1
            simp [add_comm]
          have hcast : ((k : Int) + 1) + 1 = (((k + 1 : Nat)) : Int) + 1 := by
            push_cast
            ring
          rw [hcast] at h
          obtain ⟨hinv', hkf, hne', hchild', ⟨tlo', hobj'⟩, ⟨tlc', hconn'⟩,
            hupd', hnodes', hcf'⟩ :=
            ih (k + 1) (addEntryRow st1 cid ((k : Int) + 1) n.id) hinv2 hcid2
              hk2 st' h
          refine ⟨hinv', ?_, ?_, ?_, ?_, ?_, ?_, ?_, ?_⟩
          · rw [hkf]
            congr 1
            simp [List.length_cons]
            omega
          · intro cid' hne
            rw [hne' cid' hne, entryIdxs_addEntry_ne st1 hne, hidx1 cid']
          · rw [hchild', entryChildIds_addEntry, hchild1, List.append_assoc]
            rfl
          · refine ⟨tlo ++ tlo', ?_⟩
            rw [hobj']
            have hrfl : (addEntryRow st1 cid ((k : Int) + 1) n.id).objects =
                st1.objects := rfl
            rw [hrfl, hobj1, List.append_assoc]
          · refine ⟨tlc ++ tlc', ?_⟩
            rw [hconn']
            have hrfl : (addEntryRow st1 cid ((k : Int) + 1) n.id).connections =
                st1.connections := rfl
            rw [hrfl, hconn1, List.append_assoc]
          · rw [hupd']
            have hrfl : (addEntryRow st1 cid ((k : Int) + 1) n.id).updates =
                st1.updates := rfl
            rw [hrfl, hupd1]
          · intro m hm
            rcases List.mem_cons.mp hm with rfl | hm'
            · obtain ⟨o, ho, hoid, hot⟩ := hpres1
              refine ⟨o, ?_, hoid, hot⟩
              rw [hobj']
              exact List.mem_append_left _ ho
            · exact hnodes' m hm'
          · intro oid hoid
            have hoid1 : ∃ o ∈ (addEntryRow st1 cid ((k : Int) + 1) n.id).objects,
                o.id = oid := by
              obtain ⟨o, ho, he⟩ := hoid
              refine ⟨o, ?_, he⟩
              have hrfl : (addEntryRow st1 cid ((k : Int) + 1) n.id).objects =
                  st1.objects := rfl
              rw [hrfl, hobj1]
              exact List.mem_append_left _ ho
            rw [hcf' oid hoid1]
            have hrfl : connFieldnames (addEntryRow st1 cid ((k : Int) + 1) n.id)
                oid = connFieldnames st1 oid := rfl
            rw [hrfl]
            exact hcf1 oid hoid

theorem maxIdx_congr {st st' : State}
    (h : st'.connection_entries = st.connection_entries) :
    ∀ cid, maxIdx st' cid = maxIdx st cid := by
  intro cid
  unfold maxIdx
  rw [entryIdxs_congr h]

theorem updateConn_ok_props {sch : Schema} {u : Nat} {oid f : String}
    {r : ConnectionFieldResult} {st st' : State}
    (hinv : MirrorInv sch st)
    (h : nontransactionallyUpdateConnection sch u oid f r st = .ok st') :
    ∃ c, findConn st oid f = some c ∧
      MirrorInv sch st' ∧
      findConn st' oid f = some (connRowModify c.rowid u r c) ∧
      entryIdxs st' c.rowid =
        seqFrom 1 ((entryIdxs st c.rowid).length + r.nodes.length) ∧
      (∀ cid', cid' ≠ c.rowid → entryIdxs st' cid' = entryIdxs st cid') ∧
      entryChildIds st' c.rowid =
        entryChildIds st c.rowid ++ r.nodes.map (·.id) ∧
      (∃ tl, st'.objects = st.objects ++ tl) ∧
      st'.updates = st.updates ∧
      (∀ n ∈ r.nodes, ∃ o ∈ st'.objects, o.id = n.id ∧ o.typename = n.typename) ∧
      (∀ oid', (∃ o ∈ st.objects, o.id = oid') →
        connFieldnames st' oid' = connFieldnames st oid') := by
  unfold nontransactionallyUpdateConnection at h
  cases hf : findConn st oid f with
  | none =>
      rw [show (findConn st oid f).map (·.rowid) = none from by rw [hf]; rfl]
        at h
      cases h
  | some c =>
      rw [show (findConn st oid f).map (·.rowid) = some c.rowid from by
        rw [hf]; rfl] at h
      refine ⟨c, rfl, ?_⟩
      have hmemc : c ∈ st.connections := List.mem_of_find?_eq_some hf
      have hinv1 : MirrorInv sch (updateConnRow st c.rowid u r) :=
        updateConnRow_inv c.rowid u r hinv
      have hent1 : (updateConnRow st c.rowid u r).connection_entries =
          st.connection_entries := rfl
      have hidx1 := entryIdxs_congr hent1
      have hchild1 := entryChildIds_congr hent1
      have hk : entryIdxs st c.rowid =
          seqFrom 1 (entryIdxs st c.rowid).length := hinv.entry_seq c.rowid
      have hmax : maxIdx (updateConnRow st c.rowid u r) c.rowid =
          ((entryIdxs st c.rowid).length : Int) := by
        rw [maxIdx_congr hent1]
        exact maxIdx_of_seq st c.rowid _ hk
      have h2 : insertEntries sch c.rowid
          (maxIdx (updateConnRow st c.rowid u r) c.rowid + 1) r.nodes
          (updateConnRow st c.rowid u r) = .ok st' := h
      rw [hmax] at h2
      have hcid1 : ∃ cc ∈ (updateConnRow st c.rowid u r).connections,
          cc.rowid = c.rowid := by
        refine ⟨connRowModify c.rowid u r c, ?_, connRowModify_rowid _ _ _ _⟩
        rw [updateConnRow_eq]
        exact List.mem_map_of_mem _ hmemc
      have hk1 : entryIdxs (updateConnRow st c.rowid u r) c.rowid =
          seqFrom 1 (entryIdxs st c.rowid).length := by
        rw [hidx1]
        exact hk
      obtain ⟨hinv', hkf, hne', hchild', ⟨tlo, hobj'⟩, ⟨tlc, hconn'⟩,
        hupd', hnodes', hcf'⟩ :=
        insertEntries_props sch c.rowid r.nodes (entryIdxs st c.rowid).length
          (updateConnRow st c.rowid u r) hinv1 hcid1 hk1 st' h2
      refine ⟨hinv', ?_, hkf, ?_, ?_, ?_, ?_, ?_, ?_⟩
      · unfold findConn
        rw [hconn']
        apply find?_append_some
        have := findConn_updateConnRow st c.rowid u r oid f
        rw [hf] at this
        exact this
      · intro cid' hne
        rw [hne' cid' hne, hidx1]
      · rw [hchild', hchild1]
      · refine ⟨tlo, ?_⟩
        rw [hobj']
        rfl
      · rw [hupd']
        rfl
      · exact hnodes'
      · intro oid' hoid'
        have hoid1 : ∃ o ∈ (updateConnRow st c.rowid u r).objects,
            o.id = oid' := hoid'
        rw [hcf' oid' hoid1, connFieldnames_eq_L, updateConnRow_eq]
        simp only []
        rw [connFieldnamesL_map_modify]
        rfl

theorem reachable_inv {sch : Schema} {st : State} (h : Reachable sch st) :
    MirrorInv sch st := by
  induction h with
  | boot st hb =>
      unfold bootstrap bootstrapWith at hb
      simp only [emptyState] at hb
      cases hcd : createDataTables sch with
      | error e => rw [hcd] at hb; cases hb
      | ok tables =>
          rw [hcd] at hb
          simp only [Except.ok.injEq] at hb
          subst hb
          refine
            { obj_nodup := List.nodup_nil
              obj_object_type := by intro o ho; cases ho
              conn_rowid_lt := by intro c hc; cases hc
              conn_rowid_nodup := List.nodup_nil
              conn_owner := by intro c hc; cases hc
              conn_fields := by intro o ho; cases ho
              conn_fresh := by intro c hc; cases hc
              entry_conn := by intro e he; cases he
              entry_seq := fun cid => rfl }
  | register st st' t i hr hreg ih =>
      unfold registerObject at hreg
      cases hnt : nontransactionallyRegisterObject sch t i st with
      | error e => rw [hnt] at hreg; cases hreg
      | ok st2 =>
          rw [hnt] at hreg
          simp only [Except.ok.injEq] at hreg
          subst hreg
          exact (register_preserves ih hnt).1
  | updateConn st st' u oid f r hr hu hupd ih =>
      unfold updateConnection at hupd
      cases hnt : nontransactionallyUpdateConnection sch u oid f r st with
      | error e => rw [hnt] at hupd; cases hupd
      | ok st2 =>
          rw [hnt] at hupd
          simp only [Except.ok.injEq] at hupd
          subst hupd
          obtain ⟨c, _, hinv', _⟩ := updateConn_ok_props ih hnt
          exact hinv'
  | newUpdate st ms hr ih =>
      exact
        { obj_nodup := ih.obj_nodup
          obj_object_type := ih.obj_object_type
          conn_rowid_lt := ih.conn_rowid_lt
          conn_rowid_nodup := ih.conn_rowid_nodup
          conn_owner := ih.conn_owner
          conn_fields := ih.conn_fields
          conn_fresh := ih.conn_fresh
          entry_conn := ih.entry_conn
          entry_seq := ih.entry_seq }

/-- C2: on an API-reachable store, `_updateConnection` fails with
`UnknownConnection` when no `connections` row matches
`(objectId, fieldname)`; on success it rewrites that row's `last_update`,
`total_count`, `has_next_page` and `end_cursor` from the update id and
response, registers each response node in order (present afterwards with
its typename; a typename conflict with an existing object makes the whole
call fail), and appends one `connection_entries` row per node with indices
`IFNULL(MAX(idx), 0) + 1`, incrementing by one, so the connection's index
sequence stays strictly increasing starting at 1. -/
theorem updateConnection_spec (sch : Schema) (st : State) (u : Nat)
    (oid f : String) (r : ConnectionFieldResult)
    (hr : Reachable sch st) :
    (findConn st oid f = none →
      updateConnection sch u oid f r st = .error (.unknownConnection oid f)) ∧
    (∀ st', updateConnection sch u oid f r st = .ok st' →
      ∃ c, findConn st oid f = some c ∧
        findConn st' oid f = some { c with
          last_update := some u
          total_count := some r.totalCount
          has_next_page := some r.pageInfo.hasNextPage
          end_cursor := r.pageInfo.endCursor } ∧
        (∀ n ∈ r.nodes, ∃ o ∈ st'.objects, o.id = n.id ∧
          o.typename = n.typename) ∧
        entryChildIds st' c.rowid =
          entryChildIds st c.rowid ++ r.nodes.map (·.id) ∧
        entryIdxs st' c.rowid = entryIdxs st c.rowid ++
          seqFrom (maxIdx st c.rowid + 1) r.nodes.length ∧
        strictlyIncreasingFromOne (entryIdxs st' c.rowid)) ∧
    (∀ n ∈ r.nodes, (∃ o ∈ st.objects, o.id = n.id ∧ o.typename ≠ n.typename) →
      ∀ st', updateConnection sch u oid f r st ≠ .ok st') := by
  have hinv := reachable_inv hr
  have hok : ∀ st', updateConnection sch u oid f r st = .ok st' →
      nontransactionallyUpdateConnection sch u oid f r st = .ok st' := by
    intro st' h
    unfold updateConnection at h
    cases hnt : nontransactionallyUpdateConnection sch u oid f r st with
    | error e => rw [hnt] at h; cases h
    | ok st2 => rw [hnt] at h; simp only [Except.ok.injEq] at h; subst h; rfl
  refine ⟨?_, ?_, ?_⟩
  · intro hf
    unfold updateConnection nontransactionallyUpdateConnection
    rw [show (findConn st oid f).map (·.rowid) = none from by rw [hf]; rfl]
  · intro st' h
    obtain ⟨c, hf, hinv', hfc', hkf, hne', hchild', hobj, hupd, hnodes, hcf⟩ :=
      updateConn_ok_props hinv (hok st' h)
    refine ⟨c, hf, ?_, hnodes, hchild', ?_, ?_⟩
    · rw [hfc']
      congr 1
      unfold connRowModify
      rw [if_pos (beq_self_eq_true c.rowid)]
    · have hk := hinv.entry_seq c.rowid
      have hmax := maxIdx_of_seq st c.rowid _ hk
      generalize hgk : (entryIdxs st c.rowid).length = k at hk hkf hmax
      rw [hkf, hk, hmax]
      rw [show ((k : Int) + 1) = 1 + (k : Int) from by ring]
      exact seqFrom_append k r.nodes.length 1
    · have hk := hinv.entry_seq c.rowid
      rw [hkf]
      exact strictlyIncreasingFromOne_seqFrom _
  · rintro n hn ⟨o, ho, hoid, hne⟩ st' h
    obtain ⟨c, hf, hinv', hfc', hkf, hne', hchild', ⟨tl, hobj⟩, hupd,
      hnodes, hcf⟩ := updateConn_ok_props hinv (hok st' h)
    obtain ⟨o', ho', hoid', hot'⟩ := hnodes n hn
    have homem : o ∈ st'.objects := by
      rw [hobj]
      exact List.mem_append_left _ ho
    have : o = o' := nodup_map_inj hinv'.obj_nodup homem ho'
      (hoid.trans hoid'.symm)
    rw [this, hot'] at hne
    exact hne rfl

/-- The store of the C2/C6/C10 witnesses: a fresh file bootstrapped with
`c1Schema`. -/
def c2St0 : State :=
  { emptyState with
    meta := some (mirrorBlob "MIRROR_v1" c1Schema)
    structural := true
    dataTables := ["data_Repository", "data_Issue"] }

/-- `c2St0` after `registerObject({typename: "Repository", id: "R"})`. -/
def c2St : State :=
  { c2St0 with
    objects := [⟨"R", none, "Repository"⟩]
    connections := [⟨1, "R", "issues", none, none, none, none⟩]
    nextConnectionRowid := 2 }

theorem c2St_reachable : Reachable c1Schema c2St :=
  Reachable.register c2St0 c2St "Repository" "R"
    (Reachable.boot c2St0 rfl) rfl

/-- Witness for `updateConnection_spec`: updating a connection that was
never registered fails with `UnknownConnection`. -/
theorem updateConnection_spec_witness :
    updateConnection c1Schema 1 "R" "bogus"
      { totalCount := 0
        pageInfo := { hasNextPage := false, endCursor := none }
        nodes := [] } c2St = .error (.unknownConnection "R" "bogus") :=
  (updateConnection_spec c1Schema c2St 1 "R" "bogus"
    { totalCount := 0
      pageInfo := { hasNextPage := false, endCursor := none }
      nodes := [] } c2St_reachable).1 (by decide)

/-- C6: on every API-reachable store, each registered object's
`connections` rows are exactly the connection fields of its type (in field
order); registering a fresh object inserts it with `last_update = NULL`
and one all-`NULL` connection row per connection field; and neither
`registerObject` nor `_updateConnection` ever adds or removes connection
rows of an already-registered object. -/
theorem connections_match_schema (sch : Schema) (st : State)
    (hr : Reachable sch st) :
    (∀ o ∈ st.objects,
      connFieldnames st o.id = connectionFieldnamesOfType sch o.typename) ∧
    (∀ t i st', (∀ o ∈ st.objects, o.id ≠ i) →
      registerObject sch t i st = .ok st' →
      (∃ fields, lookupType sch t = some (.object fields)) ∧
      st'.objects = st.objects ++ [⟨i, none, t⟩] ∧
      connFieldnames st' i = connectionFieldnamesOfType sch t ∧
      (∀ c ∈ st'.connections, c.object_id = i →
        c.last_update = none ∧ c.total_count = none ∧
        c.has_next_page = none ∧ c.end_cursor = none)) ∧
    (∀ t i st', registerObject sch t i st = .ok st' →
      ∀ oid, (∃ o ∈ st.objects, o.id = oid) →
        connFieldnames st' oid = connFieldnames st oid) ∧
    (∀ u oid f r st', updateConnection sch u oid f r st = .ok st' →
      ∀ oid', (∃ o ∈ st.objects, o.id = oid') →
        connFieldnames st' oid' = connFieldnames st oid') := by
  have hinv := reachable_inv hr
  have hunwrapR : ∀ t i st', registerObject sch t i st = .ok st' →
      nontransactionallyRegisterObject sch t i st = .ok st' := by
    intro t i st' h
    unfold registerObject at h
    cases hnt : nontransactionallyRegisterObject sch t i st with
    | error e => rw [hnt] at h; cases h
    | ok st2 => rw [hnt] at h; simp only [Except.ok.injEq] at h; subst h; rfl
  refine ⟨hinv.conn_fields, ?_, ?_, ?_⟩
  · intro t i st' hfresh h
    have hnt := hunwrapR t i st' h
    rcases register_ok_cases hnt with ⟨_, o, ho, hoid, _⟩ | ⟨_, fields, hl, hst'⟩
    · exact absurd hoid (hfresh o ho)
    · have hinv' := (register_preserves hinv hnt).1
      have hnew : (⟨i, none, t⟩ : ObjectRow) ∈ st'.objects := by
        rw [hst']
        exact List.mem_append_right _ (by simp)
      refine ⟨⟨fields, hl⟩, by rw [hst'], hinv'.conn_fields ⟨i, none, t⟩ hnew, ?_⟩
      intro c hc hcoid
      rw [hst'] at hc
      rcases List.mem_append.mp hc with hc | hc
      · exfalso
        obtain ⟨o, ho, hoid⟩ := hinv.conn_owner c hc
        exact hfresh o ho (hoid.trans hcoid)
      · obtain ⟨_, h2, h3, h4, h5, _, _⟩ := mkConnRows_mem _ _ _ c hc
        exact ⟨h2, h3, h4, h5⟩
  · intro t i st' h oid hoid
    exact (register_preserves hinv (hunwrapR t i st' h)).2.2.2.2.2.2.2 oid hoid
  · intro u oid f r st' h oid' hoid'
    unfold updateConnection at h
    cases hnt : nontransactionallyUpdateConnection sch u oid f r st with
    | error e => rw [hnt] at h; cases h
    | ok st2 =>
        rw [hnt] at h
        simp only [Except.ok.injEq] at h
        subst h
        obtain ⟨c, _, _, _, _, _, _, _, _, _, hcf⟩ := updateConn_ok_props hinv hnt
        exact hcf oid' hoid'

/-- Witness for `connections_match_schema`: the registered repository owns
exactly its `issues` connection row. -/
theorem connections_match_schema_witness :
    connFieldnames c2St "R" =
      connectionFieldnamesOfType c1Schema "Repository" :=
  (connections_match_schema c1Schema c2St c2St_reachable).1
    ⟨"R", none, "Repository"⟩ (by simp [c2St])

/-- C10: on every API-reachable store, a never-fetched connection
(`last_update IS NULL`) has a `NULL` stored cursor and is returned by
`findOutdated` (at any threshold) with `endCursor = null`, so
`findOutdated` cannot distinguish it from a connection fetched to an
explicitly null cursor; `_getEndCursor` does make the distinction,
returning `undefined` exactly when the row's `last_update` is `NULL` and
the stored cursor otherwise. -/
theorem endCursor_tristate (sch : Schema) (st : State)
    (hr : Reachable sch st) :
    (∀ c ∈ st.connections, c.last_update = none →
      c.end_cursor = none ∧
      ∀ since, ∃ o ∈ st.objects, o.id = c.object_id ∧
        (o.typename, o.id, c.fieldname, (none : Option String)) ∈
          findOutdatedConnections st since) ∧
    (∀ oid f c, findConn st oid f = some c →
      getEndCursor st oid f =
        .ok (if c.last_update.isSome then some c.end_cursor else none)) ∧
    (∀ oid f, getEndCursor st oid f = .ok none ↔
      ∃ c, findConn st oid f = some c ∧ c.last_update = none) := by
  have hinv := reachable_inv hr
  refine ⟨?_, ?_, ?_⟩
  · intro c hc hlu
    obtain ⟨htc, hnp, hec⟩ := hinv.conn_fresh c hc hlu
    refine ⟨hec, ?_⟩
    intro since
    obtain ⟨o, ho, hoid⟩ := hinv.conn_owner c hc
    refine ⟨o, ho, hoid, ?_⟩
    unfold findOutdatedConnections
    rw [List.mem_flatMap]
    refine ⟨o, ho, ?_⟩
    rw [List.mem_map]
    refine ⟨c, ?_, by rw [hec]⟩
    rw [List.mem_filter]
    refine ⟨hc, ?_⟩
    simp [hoid, hlu]
  · intro oid f c hf
    unfold getEndCursor
    rw [hf]
  · intro oid f
    constructor
    · intro h
      cases hf : findConn st oid f with
      | none => unfold getEndCursor at h; rw [hf] at h; cases h
      | some c =>
          unfold getEndCursor at h
          rw [hf] at h
          simp only [Except.ok.injEq] at h
          refine ⟨c, rfl, ?_⟩
          by_cases hlu : c.last_update.isSome
          · rw [if_pos hlu] at h; cases h
          · simpa using hlu
    · rintro ⟨c, hf, hlu⟩
      simp [getEndCursor, hf, hlu]

/-- Witness for `endCursor_tristate`: the freshly registered connection's
cursor reads back as `undefined`. -/
theorem endCursor_tristate_witness :
    getEndCursor c2St "R" "issues" = .ok none :=
  ((endCursor_tristate c1Schema c2St c2St_reachable).2.2 "R" "issues").mpr
    ⟨⟨1, "R", "issues", none, none, none, none⟩, by decide, rfl⟩
